import Mathlib

/-!
Shallow embedding of the spreadsheet ingestion-and-statistics core
(`src/utils/statistics.ts`, `src/utils/dataProcessing.ts`, and the
`parseExcelFile` / `processFiles` functions of
`src/components/RepeaterAnalysis.tsx`).

Cells of the raw grid are modelled by an explicit tagged union
(absent / text / number); JavaScript numbers are modelled by `ℚ`
(parsed grades are finite decimals), except where the source takes a
square root (`Math.sqrt`), which forces `ℝ`.
-/

namespace Analo

/-- A raw spreadsheet cell: absent, text, or numeric. -/
inductive Cell where
  | empty : Cell
  | str : String → Cell
  | num : ℚ → Cell
deriving DecidableEq, Repr, Inhabited

/-- JavaScript truthiness of a cell value (`!cell` is its negation):
`undefined`, the empty string and `0` are falsy. -/
def cellTruthy : Cell → Bool
  | Cell.empty => false
  | Cell.str s => s ≠ ""
  | Cell.num q => q ≠ 0

/-- JavaScript stringification of a cell as used by `Array.prototype.join`:
`undefined` joins as the empty string. -/
def cellStr : Cell → String
  | Cell.empty => ""
  | Cell.str s => s
  | Cell.num q => toString q

/-- Digit run to a natural number (base 10). -/
def digitsToNat (cs : List Char) : ℕ :=
  cs.foldl (fun a c => 10 * a + (c.toNat - '0'.toNat)) 0

/-- Model of JavaScript `parseFloat` restricted to plain decimal literals:
skip leading whitespace, optional sign, integer digits, optional dot and
fraction digits; `none` (JS `NaN`) when no digit is consumed. -/
def parseFloatQ (s : String) : Option ℚ :=
  let cs := s.data.dropWhile (fun c => c = ' ' ∨ c = '\t' ∨ c = '\n' ∨ c = '\r')
  let sign : ℚ := match cs with
    | '-' :: _ => -1
    | _ => 1
  let cs1 := match cs with
    | '-' :: r => r
    | '+' :: r => r
    | _ => cs
  let intPart := cs1.takeWhile Char.isDigit
  let rest := cs1.dropWhile Char.isDigit
  let fracPart := match rest with
    | '.' :: r => r.takeWhile Char.isDigit
    | _ => []
  if intPart = [] ∧ fracPart = [] then none
  else some (sign * ((digitsToNat intPart : ℚ) +
    (digitsToNat fracPart : ℚ) / (10 : ℚ) ^ fracPart.length))

/-- Replace the first occurrence of a comma by a dot in a character
list. -/
def replFirstComma : List Char → List Char
  | [] => []
  | c :: cs => if c = ',' then '.' :: cs else c :: replFirstComma cs

/-- `val.replace(',', '.')` with a string pattern replaces only the first
occurrence of the comma. -/
def replaceFirstComma (s : String) : String :=
  String.mk (replFirstComma s.data)

/-- Numeric coercion applied to grade cells and to the semester-average
cell: a string is parsed after normalizing the first comma to a dot; a
number is accepted as is; anything else (or a `NaN` parse) is rejected. -/
def coerceCell : Cell → Option ℚ
  | Cell.empty => none
  | Cell.str s => parseFloatQ (replaceFirstComma s)
  | Cell.num q => some q

/-! ## StatisticsEngine (`src/utils/statistics.ts`) -/

/-- `calculateAverage`: sum / length, 0 on the empty list. -/
def calculateAverage (data : List ℚ) : ℚ :=
  if data.length = 0 then 0
  else data.sum / (data.length : ℚ)

/-- `calculatePassPercentage`: fraction of values ≥ threshold, ×100;
0 on the empty list. -/
def calculatePassPercentage (data : List ℚ) (threshold : ℚ) : ℚ :=
  if data.length = 0 then 0
  else (((data.filter (fun g => decide (threshold ≤ g))).length : ℚ) /
    (data.length : ℚ)) * 100

/-- `calculateStandardDeviation`: population standard deviation
(`Math.sqrt` forces `ℝ`); 0 on the empty list. -/
noncomputable def calculateStandardDeviation (data : List ℚ) : ℝ :=
  if data.length = 0 then 0
  else
    Real.sqrt
      (((data.map (fun v => (v - calculateAverage data) ^ 2)).sum /
        (data.length : ℚ) : ℚ) : ℝ)

/-- The scanning state of `calculateMode`'s `forEach` loop: the frequency
table, the running maximum frequency and the running mode. -/
def modeLoop : (ℚ → ℕ) → ℕ → ℚ → List ℚ → ℚ
  | _, _, mode, [] => mode
  | freq, maxFreq, mode, v :: rest =>
    let f := freq v + 1
    let freq' : ℚ → ℕ := fun w => if w = v then f else freq w
    if maxFreq < f then modeLoop freq' f v rest
    else modeLoop freq' maxFreq mode rest

/-- `calculateMode`: 0 on the empty list, otherwise the scanning loop
started with an empty frequency table, `maxFreq = 0` and `mode = data[0]`. -/
def calculateMode : List ℚ → ℚ
  | [] => 0
  | d :: rest => modeLoop (fun _ => 0) 0 d (d :: rest)

/-- The highest frequency of any value in a list (0 on the empty list);
used to state what `calculateMode` returns. -/
def maxFreqOf (l : List ℚ) : ℕ :=
  (l.map (fun v => l.count v)).foldr max 0

/-- The scanning invariant of `calculateMode`: after processing prefix
`p`, the running mode is the value at the least index whose running
frequency reached the prefix's maximum frequency. -/
def ModeInv (p : List ℚ) (mode : ℚ) : Prop :=
  ∃ i, ∃ hi : i < p.length, mode = p.get ⟨i, hi⟩ ∧
    (p.take (i + 1)).count (p.get ⟨i, hi⟩) = maxFreqOf p ∧
    ∀ j, ∀ hj : j < p.length, j < i →
      (p.take (j + 1)).count (p.get ⟨j, hj⟩) < maxFreqOf p

/-- `calculateCV`: `stdDev / average * 100`, defined as 0 when the average
is 0. -/
noncomputable def calculateCV (average : ℚ) (stdDev : ℝ) : ℝ :=
  if average = 0 then 0
  else (stdDev / (average : ℝ)) * 100

open Classical in
/-- `calculateCorrelation`: Pearson correlation; 0 when the lengths
mismatch or are zero, and 0 when either denominator (a square root of a
sum of squares) is zero. -/
noncomputable def calculateCorrelation (x y : List ℚ) : ℝ :=
  if x.length ≠ y.length ∨ x.length = 0 then 0
  else
    let xBar := calculateAverage x
    let yBar := calculateAverage y
    let numerator : ℚ := ((x.zip y).map (fun p => (p.1 - xBar) * (p.2 - yBar))).sum
    let denominatorX : ℝ := Real.sqrt (((x.map (fun v => (v - xBar) ^ 2)).sum : ℚ) : ℝ)
    let denominatorY : ℝ := Real.sqrt (((y.map (fun v => (v - yBar) ^ 2)).sum : ℚ) : ℝ)
    if denominatorX = 0 ∨ denominatorY = 0 then 0
    else (numerator : ℝ) / (denominatorX * denominatorY)

/-! ## Data model (`src/types.ts`) -/

/-- A normalized student record. The grade mapping is an association list
with the most recent assignment at the head (JavaScript object assignment:
the last write to a key wins). -/
structure Student where
  id : String
  name : String
  gender : String
  grades : List (String × ℚ)
  semesterAverage : ℚ
  originalRow : List Cell
  isRepeater : Bool
  sourceClass : String
deriving DecidableEq, Repr, Inhabited

/-- Best-effort class metadata extracted from the top rows of the grid. -/
structure ClassMetadata where
  schoolYear : String
  semester : String
  className : String
  level : String
  stream : String
  classNumber : String
  directorate : String
  schoolName : String
  isAggregated : Bool
deriving DecidableEq, Repr, Inhabited

/-- Per-subject statistics (`SubjectStats`). `stdDev` and `cv` live in `ℝ`
because the source computes them through `Math.sqrt`. -/
structure SubjectStats where
  subject : String
  average : ℚ
  passPercentage : ℚ
  stdDev : ℝ
  cv : ℝ
  mode : ℚ
  countAbove15 : ℕ
  count10to14 : ℕ
  count8to9 : ℕ
  countBelow8 : ℕ
  countAbove10 : ℕ
  comparison : String

/-- Gender breakdown and success rates (`GlobalStats`). -/
structure GlobalStats where
  totalStudents : ℕ
  totalFemales : ℕ
  amazighStudents : ℕ
  artStudents : ℕ
  musicStudents : ℕ
  successfulStudents : ℕ
  successfulFemales : ℕ
  successfulMales : ℕ
  overallSuccessRate : ℚ
  femaleSuccessRate : ℚ
  maleSuccessRate : ℚ
deriving DecidableEq, Repr, Inhabited

/-- Lookup in the grade mapping (`s.grades[subject]`); `none` models
`undefined`. -/
def lookupGrade (gs : List (String × ℚ)) (k : String) : Option ℚ :=
  (gs.find? (fun p => p.1 = k)).map (fun p => p.2)

/-! ## AnalysisCache view functions (`src/utils/dataProcessing.ts`).
The `memoize` wrapper only caches the most recent result of the pure
function below it; the embedding models the pure functions. -/

/-- `students.map(s => s.grades[subject]).filter(g => typeof g === 'number')`. -/
def gradesFor (students : List Student) (subject : String) : List ℚ :=
  students.filterMap (fun s => lookupGrade s.grades subject)

/-- `getSubjectAnalysis`: detailed per-subject statistics. -/
noncomputable def getSubjectAnalysis (students : List Student)
    (subjects : List String) : List SubjectStats :=
  let globalAverage := calculateAverage (students.map (fun s => s.semesterAverage))
  subjects.map (fun subject =>
    let grades := gradesFor students subject
    let average := calculateAverage grades
    let stdDev := calculateStandardDeviation grades
    { subject := subject
      average := average
      passPercentage := calculatePassPercentage grades 10
      stdDev := stdDev
      cv := calculateCV average stdDev
      mode := calculateMode grades
      countAbove15 := (grades.filter (fun g => decide (15 ≤ g))).length
      count10to14 := (grades.filter (fun g => decide (10 ≤ g) && decide (g < 15))).length
      count8to9 := (grades.filter (fun g => decide (8 ≤ g) && decide (g < 10))).length
      countBelow8 := (grades.filter (fun g => decide (g < 8))).length
      countAbove10 := (grades.filter (fun g => decide (10 ≤ g))).length
      comparison :=
        if globalAverage < average then "أعلى من المعدل العام"
        else if average < globalAverage then "أقل من المعدل العام"
        else "مساوي للمعدل العام" })

/-- `getDistributionStats`: the simplified per-subject view for the grade
distribution table (`stdDev`, `cv`, `mode` left at 0, empty comparison). -/
noncomputable def getDistributionStats (students : List Student)
    (subjects : List String) : List SubjectStats :=
  subjects.map (fun subject =>
    let grades := gradesFor students subject
    { subject := subject
      average := calculateAverage grades
      passPercentage := calculatePassPercentage grades 10
      stdDev := 0
      cv := 0
      mode := 0
      comparison := ""
      countAbove15 := (grades.filter (fun g => decide (15 ≤ g))).length
      count10to14 := (grades.filter (fun g => decide (10 ≤ g) && decide (g < 15))).length
      count8to9 := (grades.filter (fun g => decide (8 ≤ g) && decide (g < 10))).length
      countBelow8 := (grades.filter (fun g => decide (g < 8))).length
      countAbove10 := (grades.filter (fun g => decide (10 ≤ g))).length })

/-- `getCategoryGlobalStats`: headcounts and success rates split by gender.
`totalMales` is the complement `totalStudents - totalFemales`. -/
def getCategoryGlobalStats (students : List Student) : GlobalStats :=
  let totalStudents := students.length
  let totalFemales := (students.filter (fun s => s.gender = "أنثى")).length
  let successfulStudents :=
    (students.filter (fun s => decide (10 ≤ s.semesterAverage))).length
  let successfulFemales :=
    (students.filter (fun s =>
      decide (10 ≤ s.semesterAverage) && decide (s.gender = "أنثى"))).length
  let successfulMales :=
    (students.filter (fun s =>
      decide (10 ≤ s.semesterAverage) && decide (s.gender = "ذكر"))).length
  let totalMales := totalStudents - totalFemales
  { totalStudents := totalStudents
    totalFemales := totalFemales
    amazighStudents := 0
    artStudents := 0
    musicStudents := 0
    successfulStudents := successfulStudents
    successfulFemales := successfulFemales
    successfulMales := successfulMales
    overallSuccessRate :=
      if totalStudents ≠ 0 then ((successfulStudents : ℚ) / (totalStudents : ℚ)) * 100 else 0
    femaleSuccessRate :=
      if totalFemales ≠ 0 then ((successfulFemales : ℚ) / (totalFemales : ℚ)) * 100 else 0
    maleSuccessRate :=
      if totalMales ≠ 0 then ((successfulMales : ℚ) / (totalMales : ℚ)) * 100 else 0 }

/-! ## SpreadsheetIngestor (`parseExcelFile` in
`src/components/RepeaterAnalysis.tsx`). A worksheet is a `List Row` of
heterogeneous cells; the file-reading / XLSX-decoding layer is outside the
core. -/

/-- One worksheet row. -/
abbrev Row := List Cell

/-- `row[i]` with JavaScript out-of-bounds semantics (`undefined`). -/
def rowGet (r : Row) (i : ℕ) : Cell :=
  r.getD i Cell.empty

/-- Split a character list at every occurrence of a separator. -/
def splitChar (sep : Char) : List Char → List (List Char)
  | [] => [[]]
  | c :: cs =>
    let r := splitChar sep cs
    if c = sep then [] :: r
    else
      match r with
      | w :: ws => (c :: w) :: ws
      | [] => [[c]]

/-- Is this character JavaScript whitespace (as far as the grids we model
contain any)? -/
def isWS (c : Char) : Bool :=
  c = ' ' ∨ c = '\t' ∨ c = '\n' ∨ c = '\r'

/-- `String.prototype.trim`. -/
def trimJS (s : String) : String :=
  String.mk (((s.data.dropWhile isWS).reverse.dropWhile isWS).reverse)

/-- Join a list of strings with a separator. -/
def joinSep (sep : String) : List String → String
  | [] => ""
  | [x] => x
  | x :: y :: rest => x ++ sep ++ joinSep sep (y :: rest)

/-- Split a string into its maximal space-separated words; models
`.replace(/\s+/g, ' ').trim()` followed by `.split(' ')` (and yields `[]`
where JavaScript would yield `['']`). -/
def wordsOf (s : String) : List String :=
  (splitChar ' ' s.data).filterMap
    (fun w => if w = [] then none else some (String.mk w))

/-- `row.join(' ')` followed by whitespace collapsing and trimming. -/
def joinCollapse (r : Row) : String :=
  joinSep " " (wordsOf (joinSep " " (r.map cellStr)))

/-- Words of metadata row 4: truthy cells joined with spaces, whitespace
collapsed, split on spaces. -/
def metaWords (r : Row) : List String :=
  wordsOf (joinSep " " ((r.filter cellTruthy).map cellStr))

/-- Metadata extraction from rows 2 (directorate), 3 (school name) and 4
(free-text class description parsed purely by word position). -/
def extractMetadata (grid : List Row) : ClassMetadata :=
  let base : ClassMetadata :=
    { semester := "", schoolYear := "", className := "", level := "",
      stream := "", classNumber := "", directorate := "", schoolName := "",
      isAggregated := false }
  let base := if 2 < grid.length then
      { base with directorate := joinCollapse (grid.getD 2 []) } else base
  let base := if 3 < grid.length then
      { base with schoolName := joinCollapse (grid.getD 3 []) } else base
  if 4 < grid.length then
    let words := metaWords (grid.getD 4 [])
    if 7 ≤ words.length then
      let level := trimJS (words.getD 5 "" ++ " " ++ words.getD 6 "")
      let classNum := words.getD (words.length - 1) ""
      let stream :=
        if 8 < words.length then
          trimJS (joinSep " " ((words.drop 7).dropLast))
        else ""
      { base with
        semester := trimJS (words.getD 2 "" ++ " " ++ words.getD 3 "")
        schoolYear := trimJS (words.getD 4 "")
        level := level
        classNumber := classNum
        stream := stream
        className := joinSep " "
          (wordsOf (level ++ " " ++ stream ++ " " ++ classNum)) }
    else base
  else base

/-- Does the first character list contain the second as a contiguous
run? -/
def listContains : List Char → List Char → Bool
  | [], sub => sub.isEmpty
  | c :: rest, sub => sub.isPrefixOf (c :: rest) || listContains rest sub

/-- Substring test (`String.prototype.includes`). -/
def containsStr (s sub : String) : Bool :=
  listContains s.data sub.data

/-- `String.prototype.toLowerCase` (ASCII letters; the Arabic keywords
are unaffected). -/
def toLowerStr (s : String) : String :=
  String.mk (s.data.map Char.toLower)

/-- The fixed name-column keywords scanned for in the header row. -/
def headerKeywords : List String := ["الاسم", "اللقب", "nom", "prénom"]

/-- Does a row look like the header row: its first 10 cells, joined and
lower-cased, contain one of the keywords? -/
def rowMatchesHeader (r : Row) : Bool :=
  let rowString := toLowerStr (joinSep " " ((r.take 10).map cellStr))
  headerKeywords.any (fun kw => containsStr rowString kw)

/-- Header-row detection: first matching row among the first 20; fallback
to row 5 when it has at least one text cell, else row 0. -/
def headerRowIndexOf (grid : List Row) : ℕ :=
  match (List.range (min grid.length 20)).find?
      (fun i => rowMatchesHeader (grid.getD i [])) with
  | some i => i
  | none =>
    if 5 < grid.length ∧ (grid.getD 5 []).any (fun c => c matches Cell.str _)
    then 5 else 0

/-- `row.every(cell => !cell)`: every cell of the row is falsy. -/
def rowFalsy (r : Row) : Bool :=
  r.all (fun c => !cellTruthy c)

/-- A row is fully empty: every cell is absent (strictly stronger than
`rowFalsy`, which also accepts zero and empty-string cells). -/
def rowBlank (r : Row) : Bool :=
  r.all (fun c => decide (c = Cell.empty))

/-- Drop trailing rows whose cells are all falsy (the `while … pop()`
loop). -/
def dropTrailingEmptyRows (t : List Row) : List Row :=
  (t.reverse.dropWhile rowFalsy).reverse

/-- Trailing-row pruning: drop trailing falsy rows, then — whenever more
than one row remains — drop exactly one more row (both branches of the
source's `if` pop). -/
def pruneRows (t : List Row) : List Row :=
  let e := dropTrailingEmptyRows t
  if 1 < e.length then e.dropLast else e

/-- Candidate-subject derivation from the header row: cells from index 5
up to (excluding) the last cell. -/
def subjectsOf (headerRow : Row) : List String :=
  if 5 < headerRow.length then
    let rawColumns := headerRow.drop 5
    if 0 < rawColumns.length then (rawColumns.dropLast).map cellStr else []
  else []

/-- One iteration of the `subjects.forEach` loop: coerce the subject's
grade cell and store it (at the head, i.e. as the most recent write) when
numeric. -/
def gradeStep (gradesData : List Cell) (acc : List (String × ℚ))
    (p : ℕ × String) : List (String × ℚ) :=
  match coerceCell (gradesData.getD p.1 Cell.empty) with
  | some q => (p.2, q) :: acc
  | none => acc

/-- The grade mapping built by the `subjects.forEach` loop: each candidate
subject's cell is coerced and stored when numeric; the head of the list is
the most recent store. -/
def buildGrades (subjects : List String) (gradesData : List Cell) :
    List (String × ℚ) :=
  subjects.enum.foldl (gradeStep gradesData) []

/-- The semester average: the last cell of the grade area, coerced, with
fallback 0. -/
def semAvgOf (gradesData : List Cell) : ℚ :=
  match gradesData.getLast? with
  | some c => (coerceCell c).getD 0
  | none => 0

/-- Build one student from a data row (`jsonData.slice(1)` entry), or
`none` when the name cell (index 1) is falsy. -/
def mkStudent (subjects : List String) (classNum : String) (idx : ℕ)
    (row : Row) : Option Student :=
  let name := rowGet row 1
  if cellTruthy name then
    let gender := rowGet row 3
    let repeaterVal := rowGet row 4
    let gradesData := row.drop 5
    some
      { id := "temp-" ++ toString idx
        name := cellStr name
        gender := if cellTruthy gender then cellStr gender else "غير محدد"
        grades := buildGrades subjects gradesData
        semesterAverage := semAvgOf gradesData
        originalRow := row
        isRepeater := trimJS (if cellTruthy repeaterVal then cellStr repeaterVal else "") = "نعم"
        sourceClass := classNum }
  else none

/-- `jsonData.slice(1).map((row, index) => …).filter(s => s !== null)`:
the index is the position before filtering. -/
def mkStudents (subjects : List String) (classNum : String) :
    ℕ → List Row → List Student
  | _, [] => []
  | i, r :: rs =>
    match mkStudent subjects classNum i r with
    | some s => s :: mkStudents subjects classNum (i + 1) rs
    | none => mkStudents subjects classNum (i + 1) rs

/-- The result triple of a successful single-file parse. -/
structure ParseResult where
  students : List Student
  subjects : List String
  metadata : ClassMetadata
deriving DecidableEq, Repr, Inhabited

/-- Error for a grid with zero rows. -/
def emptyFileMsg : String := "الملف فارغ."

/-- Error when fewer than one row remains after pruning. -/
def insufficientDataMsg : String := "الملف لا يحتوي على بيانات كافية."

/-- Error when the detected header row has fewer than 3 cells. -/
def unsupportedFormatMsg : String := "تنسيق الملف غير مدعوم."

/-- `parseExcelFile`, from the decoded grid onward. -/
def parseGrid (grid : List Row) : Except String ParseResult :=
  if grid.length = 0 then .error emptyFileMsg
  else
    let metadata := extractMetadata grid
    let headerRowIndex := headerRowIndexOf grid
    let jsonData := pruneRows (grid.drop headerRowIndex)
    if jsonData.length < 1 then .error insufficientDataMsg
    else
      let headerRow := jsonData.getD 0 []
      if headerRow.length < 3 then .error unsupportedFormatMsg
      else
        let subjects := subjectsOf headerRow
        let students := mkStudents subjects metadata.classNumber 0 (jsonData.drop 1)
        let activeSubjects := subjects.filter (fun subject =>
          students.any (fun s =>
            match lookupGrade s.grades subject with
            | some g => decide (0 < g)
            | none => false))
        .ok { students := students, subjects := activeSubjects, metadata := metadata }

/-! ## MultiFileAggregator (`processFiles`, multi mode, in
`src/components/RepeaterAnalysis.tsx`). A file is a name (used in error
messages) plus its decoded grid. -/

/-- Composite id `f{fileIndex}-s{studentIndex}`. -/
def mkId (fileIndex studentIndex : ℕ) : String :=
  "f" ++ toString fileIndex ++ "-s" ++ toString studentIndex

/-- Re-stamp the students of one parsed file with composite ids and the
file's class number (`result.metadata.classNumber || '?'`). -/
def assignIds (fileIndex : ℕ) (classNum : String) :
    ℕ → List Student → List Student
  | _, [] => []
  | i, s :: rest =>
    { s with
      id := mkId fileIndex i
      sourceClass := if classNum ≠ "" then classNum else "?" } ::
      assignIds fileIndex classNum (i + 1) rest

/-- Level-mismatch error naming the offending file and both values. -/
def levelMsg (fname lv mlv : String) : String :=
  "خطأ: الملف \"" ++ fname ++ "\" يختلف في المستوى الدراسي (" ++ lv ++
    ") عن الملف الأول (" ++ mlv ++ "). يجب تحميل ملفات لنفس المستوى."

/-- Stream-mismatch error naming the offending file and both values. -/
def streamMsg (fname st mst : String) : String :=
  "خطأ: الملف \"" ++ fname ++ "\" يختلف في الشعبة (" ++ st ++
    ") عن الملف الأول (" ++ mst ++ "). يجب تحميل ملفات لنفس الشعبة."

/-- Error when no valid data was extracted (no file yielded metadata). -/
def noValidDataMsg : String := "لم يتم استخراج بيانات صالحة."

/-- The aggregated metadata: class number replaced by the "all classes"
marker, class name recomposed with the aggregation marker. -/
def aggMetaOf (mm : ClassMetadata) : ClassMetadata :=
  { mm with
    classNumber := "كل الأقسام"
    className := mm.level ++ " " ++ mm.stream ++ " (مجمع)"
    isAggregated := true }

/-- The sequential aggregation loop: parse each file in order, validate
its level and stream against the first file's metadata, merge with
composite ids. Any failure aborts the whole batch. -/
def aggGo (fileIndex : ℕ) (master : Option (ClassMetadata × List String))
    (acc : List Student) :
    List (String × List Row) →
      Except String (List Student × List String × ClassMetadata)
  | [] =>
    match master with
    | none => .error noValidDataMsg
    | some (mm, ms) => .ok (acc, ms, aggMetaOf mm)
  | (fname, grid) :: rest =>
    match parseGrid grid with
    | .error e => .error e
    | .ok r =>
      match master with
      | some (mm, ms) =>
        if r.metadata.level ≠ mm.level then
          .error (levelMsg fname r.metadata.level mm.level)
        else if r.metadata.stream ≠ mm.stream then
          .error (streamMsg fname r.metadata.stream mm.stream)
        else
          aggGo (fileIndex + 1) (some (mm, ms))
            (acc ++ assignIds fileIndex r.metadata.classNumber 0 r.students) rest
      | none =>
        aggGo (fileIndex + 1) (some (r.metadata, r.subjects))
          (acc ++ assignIds fileIndex r.metadata.classNumber 0 r.students) rest

/-- Multi-file aggregation over an ordered list of (filename, grid)
pairs: combined students, the first file's subjects, aggregated
metadata — or the first error, with no partial output. -/
def aggregateFiles (files : List (String × List Row)) :
    Except String (List Student × List String × ClassMetadata) :=
  aggGo 0 none [] files

/-- Parse every file of a batch in order, stopping at the first error
(used to state properties of successful aggregations). -/
def parseAll : List (String × List Row) → Except String (List ParseResult)
  | [] => .ok []
  | (_, grid) :: rest =>
    match parseGrid grid with
    | .error e => .error e
    | .ok r =>
      match parseAll rest with
      | .error e => .error e
      | .ok rs => .ok (r :: rs)

/-- The expected (fileIndex, studentIndex) pairs of a merged batch with
the given per-file student counts, numbering files from `fi`. -/
def expectedPairs (fi : ℕ) : List ℕ → List (ℕ × ℕ)
  | [] => []
  | c :: cs => (List.range c).map (fun si => (fi, si)) ++ expectedPairs (fi + 1) cs

/-- The merged student list of a successful batch, numbering files
from `fi`. -/
def mergedOf (fi : ℕ) : List ParseResult → List Student
  | [] => []
  | r :: rs =>
    assignIds fi r.metadata.classNumber 0 r.students ++ mergedOf (fi + 1) rs

/-! ## Concrete grids used as evaluation inputs. -/

/-- A 3-cell header row containing the keyword `nom`. -/
def c1Header : Row := [Cell.str "num", Cell.str "nom", Cell.str "g"]

/-- A grid whose single data row below the header is consumed by the
unconditional trailing-row drop. -/
def c1Grid : List Row := [c1Header, [Cell.str "1", Cell.str "Ali", Cell.str "x"]]

/-- A well-formed single-class grid (level `L1 L2`, one student, one
subject, a trailing summary row). -/
def wGridA : List Row :=
  [[], [], [], [],
   [Cell.str "a b c d e L1 L2 C1"],
   [Cell.str "num", Cell.str "nom", Cell.str "g", Cell.str "x", Cell.str "y",
    Cell.str "S1", Cell.str "AVG"],
   [Cell.str "1", Cell.str "Ali", Cell.str "", Cell.str "ذكر", Cell.str "لا",
    Cell.num 12, Cell.num 11],
   [Cell.str "totals", Cell.str "t"]]

/-- Like `wGridA` but with level `X1 L2` and class number `C2`. -/
def wGridB : List Row :=
  [[], [], [], [],
   [Cell.str "a b c d e X1 L2 C2"],
   [Cell.str "num", Cell.str "nom", Cell.str "g", Cell.str "x", Cell.str "y",
    Cell.str "S1", Cell.str "AVG"],
   [Cell.str "1", Cell.str "Ali", Cell.str "", Cell.str "ذكر", Cell.str "لا",
    Cell.num 12, Cell.num 11],
   [Cell.str "totals", Cell.str "t"]]

/-- A grid whose last non-empty row (all-zero cells aside) is the summary
row `[5,5,5]`. -/
def c3Grid : List Row :=
  [[Cell.str "num", Cell.str "nom", Cell.str "g"],
   [Cell.str "1", Cell.str "Ali", Cell.str "c"],
   [Cell.num 5, Cell.num 5, Cell.num 5]]

/-- The data row shared by `wGridA` and `wGridB`. -/
def wRowAli : Row :=
  [Cell.str "1", Cell.str "Ali", Cell.str "", Cell.str "ذكر", Cell.str "لا",
   Cell.num 12, Cell.num 11]

/-- The metadata extracted from `wGridA`. -/
def wMetaA : ClassMetadata :=
  { schoolYear := "e", semester := "c d", className := "L1 L2 C1",
    level := "L1 L2", stream := "", classNumber := "C1", directorate := "",
    schoolName := "", isAggregated := false }

/-- The metadata extracted from `wGridB`. -/
def wMetaB : ClassMetadata :=
  { schoolYear := "e", semester := "c d", className := "X1 L2 C2",
    level := "X1 L2", stream := "", classNumber := "C2", directorate := "",
    schoolName := "", isAggregated := false }

/-- The parse result of `wGridA`. -/
def wResA : ParseResult :=
  { students := [{ id := "temp-0", name := "Ali", gender := "ذكر",
                   grades := [("S1", 12)], semesterAverage := 11,
                   originalRow := wRowAli, isRepeater := false,
                   sourceClass := "C1" }]
    subjects := ["S1"]
    metadata := wMetaA }

/-- The parse result of `wGridB`. -/
def wResB : ParseResult :=
  { students := [{ id := "temp-0", name := "Ali", gender := "ذكر",
                   grades := [("S1", 12)], semesterAverage := 11,
                   originalRow := wRowAli, isRepeater := false,
                   sourceClass := "C2" }]
    subjects := ["S1"]
    metadata := wMetaB }

/-- The merged student stamped `f{i}-s0` in the two-copies-of-`wGridA`
batch. -/
def wAggStudent (i : ℕ) : Student :=
  { id := mkId i 0, name := "Ali", gender := "ذكر", grades := [("S1", 12)],
    semesterAverage := 11, originalRow := wRowAli, isRepeater := false,
    sourceClass := "C1" }

/-- The aggregated metadata of the two-copies-of-`wGridA` batch. -/
def wAggMeta : ClassMetadata :=
  { schoolYear := "e", semester := "c d", className := "L1 L2  (مجمع)",
    level := "L1 L2", stream := "", classNumber := "كل الأقسام",
    directorate := "", schoolName := "", isAggregated := true }

/-- A successful student with an unrecognized gender label. -/
def c10Student : Student :=
  { id := "s0", name := "X", gender := "غير محدد", grades := [],
    semesterAverage := 12, originalRow := [], isRepeater := false,
    sourceClass := "" }

/-! ## Helper lemmas -/

theorem average_of_const (c : ℚ) (x : List ℚ) (hne : x ≠ [])
    (h : ∀ a ∈ x, a = c) : calculateAverage x = c := by
  unfold calculateAverage
  rw [if_neg (by simpa using hne)]
  rw [List.sum_eq_card_nsmul x c h]
  have hlen : (x.length : ℚ) ≠ 0 := by
    exact_mod_cast (by simpa [List.length_eq_zero] using hne : x.length ≠ 0)
  field_simp

theorem sum_sq_dev_eq_zero (x : List ℚ) (h : ∀ a ∈ x, ∀ b ∈ x, a = b) :
    (x.map (fun v => (v - calculateAverage x) ^ 2)).sum = 0 := by
  cases hx : x with
  | nil => simp
  | cons c xs =>
    subst hx
    have hav : calculateAverage (c :: xs) = c :=
      average_of_const c _ (by simp)
        (fun a ha => h a ha c (List.mem_cons_self c xs))
    apply List.sum_eq_zero
    intro z hz
    simp only [List.mem_map] at hz
    obtain ⟨a, ha, rfl⟩ := hz
    rw [hav, h a ha c (List.mem_cons_self c xs)]
    ring

theorem correlation_zero_of_left_dev (x y : List ℚ)
    (h : (x.map (fun v => (v - calculateAverage x) ^ 2)).sum = 0) :
    calculateCorrelation x y = 0 := by
  unfold calculateCorrelation
  by_cases h1 : x.length ≠ y.length ∨ x.length = 0
  · rw [if_pos h1]
  · rw [if_neg h1]
    dsimp only
    rw [if_pos]
    left
    rw [h]
    simp

theorem correlation_zero_of_right_dev (x y : List ℚ)
    (h : (y.map (fun v => (v - calculateAverage y) ^ 2)).sum = 0) :
    calculateCorrelation x y = 0 := by
  unfold calculateCorrelation
  by_cases h1 : x.length ≠ y.length ∨ x.length = 0
  · rw [if_pos h1]
  · rw [if_neg h1]
    dsimp only
    rw [if_pos]
    right
    rw [h]
    simp

/-! ## Claim theorems -/

/-- C5: every StatisticsEngine function is total and returns the fallback
0 on its degenerate inputs: `calculateAverage`, `calculatePassPercentage`,
`calculateStandardDeviation` and `calculateMode` on the empty list;
`calculateCV` when the average is 0; `calculateCorrelation` on empty
inputs, mismatched lengths, or when either series has zero variance (all
values equal). -/
theorem c5_statistics_fallbacks :
    (calculateAverage [] = 0) ∧
    (∀ t : ℚ, calculatePassPercentage [] t = 0) ∧
    (calculateStandardDeviation [] = 0) ∧
    (calculateMode [] = 0) ∧
    (∀ sd : ℝ, calculateCV 0 sd = 0) ∧
    (∀ x y : List ℚ, x.length ≠ y.length → calculateCorrelation x y = 0) ∧
    (calculateCorrelation [] [] = 0) ∧
    (∀ x y : List ℚ, (∀ a ∈ x, ∀ b ∈ x, a = b) → calculateCorrelation x y = 0) ∧
    (∀ x y : List ℚ, (∀ a ∈ y, ∀ b ∈ y, a = b) → calculateCorrelation x y = 0) := by
  refine ⟨rfl, fun t => rfl, by simp [calculateStandardDeviation], rfl,
    fun sd => by simp [calculateCV], fun x y h => ?_, ?_, fun x y h => ?_,
    fun x y h => ?_⟩
  · unfold calculateCorrelation
    rw [if_pos (Or.inl h)]
  · unfold calculateCorrelation
    rw [if_pos]
    exact Or.inr rfl
  · exact correlation_zero_of_left_dev x y (sum_sq_dev_eq_zero x h)
  · exact correlation_zero_of_right_dev x y (sum_sq_dev_eq_zero y h)

/-- C5 witness: the hypothesis-carrying conjuncts evaluated at concrete
inputs. -/
theorem c5_statistics_fallbacks_witness :
    (([1, 2] : List ℚ).length ≠ ([1] : List ℚ).length ∧
      calculateCorrelation [1, 2] [1] = 0) ∧
    ((∀ a ∈ ([5, 5] : List ℚ), ∀ b ∈ ([5, 5] : List ℚ), a = b) ∧
      calculateCorrelation [5, 5] [1, 9] = 0) ∧
    ((∀ a ∈ ([7, 7] : List ℚ), ∀ b ∈ ([7, 7] : List ℚ), a = b) ∧
      calculateCorrelation [1, 9] [7, 7] = 0) := by
  refine ⟨⟨by decide, ?_⟩, ⟨by decide, ?_⟩, ⟨by decide, ?_⟩⟩
  · exact c5_statistics_fallbacks.2.2.2.2.2.1 [1, 2] [1] (by decide)
  · exact c5_statistics_fallbacks.2.2.2.2.2.2.2.1 [5, 5] [1, 9] (by decide)
  · exact c5_statistics_fallbacks.2.2.2.2.2.2.2.2 [1, 9] [7, 7] (by decide)

/-- C4: `getDistributionStats` is `getSubjectAnalysis` with `stdDev`,
`cv` and `mode` zeroed and the comparison label emptied; the subject,
average, pass percentage and all five bucket counts agree entry by
entry. -/
theorem c4_distribution_refines_subject_analysis
    (students : List Student) (subjects : List String) :
    getDistributionStats students subjects =
      (getSubjectAnalysis students subjects).map
        (fun st => { st with stdDev := 0, cv := 0, mode := 0, comparison := "" }) := by
  unfold getDistributionStats getSubjectAnalysis
  rw [List.map_map]
  rfl

theorem countP_two_le {α : Type} (p f m : α → Bool)
    (hdisj : ∀ a, f a = true → m a = false) :
    ∀ l : List α,
      l.countP (fun a => p a && f a) + l.countP (fun a => p a && m a) ≤ l.countP p
  | [] => by simp
  | a :: l => by
    have ih := countP_two_le p f m hdisj l
    simp only [List.countP_cons]
    by_cases hp : p a = true
    · by_cases hf : f a = true
      · have hm := hdisj a hf
        simp [hp, hf, hm]
        omega
      · simp only [Bool.not_eq_true] at hf
        simp [hp, hf]
        by_cases hm : m a = true <;> simp [hm] <;> omega
    · simp only [Bool.not_eq_true] at hp
      simp [hp]
      omega

theorem countP_two_lt {α : Type} (p f m : α → Bool)
    (hdisj : ∀ a, f a = true → m a = false) (l : List α) (x : α) (hx : x ∈ l)
    (hpx : p x = true) (hfx : f x = false) (hmx : m x = false) :
    l.countP (fun a => p a && f a) + l.countP (fun a => p a && m a) < l.countP p := by
  induction l with
  | nil => cases hx
  | cons a l ih =>
    simp only [List.countP_cons]
    rcases List.mem_cons.mp hx with rfl | hx
    · have h2 := countP_two_le p f m hdisj l
      simp [hpx, hfx, hmx]
      omega
    · have h3 := ih hx
      by_cases hp : p a = true
      · by_cases hf : f a = true
        · have hm := hdisj a hf
          simp [hp, hf, hm]
          omega
        · simp only [Bool.not_eq_true] at hf
          simp [hp, hf]
          by_cases hm : m a = true <;> simp [hm] <;> omega
      · simp only [Bool.not_eq_true] at hp
        simp [hp]
        omega

/-- C10: `getCategoryGlobalStats` counts males as the complement of the
exact female label (so unrecognized gender labels land in the male
headcount and male success-rate denominator), while `successfulMales`
counts only the exact male label; hence a successful student with an
unrecognized gender label makes `successfulFemales + successfulMales`
fall strictly short of `successfulStudents`. -/
theorem c10_gender_complement_counting (students : List Student)
    (h : ∃ s ∈ students, 10 ≤ s.semesterAverage ∧
      s.gender ≠ "أنثى" ∧ s.gender ≠ "ذكر") :
    (getCategoryGlobalStats students).maleSuccessRate =
      (if (getCategoryGlobalStats students).totalStudents -
          (getCategoryGlobalStats students).totalFemales ≠ 0 then
        ((getCategoryGlobalStats students).successfulMales : ℚ) /
          (((getCategoryGlobalStats students).totalStudents -
            (getCategoryGlobalStats students).totalFemales : ℕ) : ℚ) * 100
      else 0) ∧
    (getCategoryGlobalStats students).successfulMales =
      (students.filter (fun s =>
        decide (10 ≤ s.semesterAverage) && decide (s.gender = "ذكر"))).length ∧
    (getCategoryGlobalStats students).successfulFemales +
        (getCategoryGlobalStats students).successfulMales <
      (getCategoryGlobalStats students).successfulStudents := by
  refine ⟨rfl, rfl, ?_⟩
  obtain ⟨x, hx, havg, hnf, hnm⟩ := h
  show (students.filter (fun s =>
      decide (10 ≤ s.semesterAverage) && decide (s.gender = "أنثى"))).length +
    (students.filter (fun s =>
      decide (10 ≤ s.semesterAverage) && decide (s.gender = "ذكر"))).length <
    (students.filter (fun s => decide (10 ≤ s.semesterAverage))).length
  rw [← List.countP_eq_length_filter, ← List.countP_eq_length_filter,
    ← List.countP_eq_length_filter]
  exact countP_two_lt (fun s => decide (10 ≤ s.semesterAverage))
    (fun s => decide (s.gender = "أنثى")) (fun s => decide (s.gender = "ذكر"))
    (fun a ha => by
      simp only [decide_eq_true_eq] at ha
      simp [ha])
    students x hx (by simpa using havg) (by simpa using hnf) (by simpa using hnm)

/-- C10 witness: a single successful student with gender label
"غير محدد". -/
theorem c10_gender_complement_counting_witness :
    (10 ≤ c10Student.semesterAverage ∧
      c10Student.gender ≠ "أنثى" ∧ c10Student.gender ≠ "ذكر") ∧
    (getCategoryGlobalStats [c10Student]).successfulFemales +
      (getCategoryGlobalStats [c10Student]).successfulMales <
      (getCategoryGlobalStats [c10Student]).successfulStudents := by
  refine ⟨by decide, ?_⟩
  exact (c10_gender_complement_counting [c10Student]
    ⟨c10Student, by decide, by decide⟩).2.2

/-- C1 counterexample: a grid with a header row (3 cells, keyword `nom`)
and one data row below it. The unconditional trailing-row drop consumes
the data row, zero data rows survive below the header, yet the parser
returns success with an empty student list instead of the
InsufficientData error. -/
theorem c1_counterexample :
    parseGrid c1Grid =
      Except.ok { students := [], subjects := [],
                  metadata := extractMetadata c1Grid } := by
  rfl

/-- C1 amended: the InsufficientData error is raised exactly when zero
rows (the header row included) remain after header detection and
trailing-row pruning; when exactly the header row (with at least 3 cells)
survives, the parser instead returns success with an empty student
list. -/
theorem c1_amended (grid : List Row) (hg : grid ≠ []) :
    ((parseGrid grid = Except.error insufficientDataMsg) ↔
      pruneRows (grid.drop (headerRowIndexOf grid)) = []) ∧
    (∀ hrow : Row, pruneRows (grid.drop (headerRowIndexOf grid)) = [hrow] →
      3 ≤ hrow.length →
      parseGrid grid =
        Except.ok { students := [], subjects := [],
                    metadata := extractMetadata grid }) := by
  have hlen0 : ¬ grid.length = 0 := by
    simpa [List.length_eq_zero] using hg
  constructor
  · constructor
    · intro h
      by_contra hne2
      have hpos : 0 < (pruneRows (grid.drop (headerRowIndexOf grid))).length :=
        List.length_pos.mpr hne2
      unfold parseGrid at h
      rw [if_neg hlen0] at h
      dsimp only at h
      rw [if_neg (by omega)] at h
      split at h
      · exact absurd (Except.error.inj h) (by decide)
      · exact Except.noConfusion h
    · intro h
      unfold parseGrid
      rw [if_neg hlen0]
      dsimp only
      rw [h]
      simp
  · intro hrow ht h3
    unfold parseGrid
    rw [if_neg hlen0]
    dsimp only
    rw [ht]
    rw [if_neg (by simp)]
    simp only [List.getD_cons_zero]
    rw [if_neg (not_lt.mpr h3)]
    simp only [List.drop_succ_cons, List.drop_nil, mkStudents]
    congr 1
    simp [List.filter_eq_nil_iff]

/-- C1 amended witness: `c1Grid` evaluated — only the header survives
pruning and the parse succeeds with an empty student list. -/
theorem c1_amended_witness :
    c1Grid ≠ [] ∧
    pruneRows (c1Grid.drop (headerRowIndexOf c1Grid)) = [c1Header] ∧
    3 ≤ c1Header.length ∧
    parseGrid c1Grid =
      Except.ok { students := [], subjects := [],
                  metadata := extractMetadata c1Grid } := by
  refine ⟨by decide, by rfl, by decide, ?_⟩
  exact (c1_amended c1Grid (by decide)).2 c1Header (by rfl) (by decide)

theorem rowBlank_falsy {r : Row} (h : rowBlank r = true) : rowFalsy r = true := by
  simp only [rowBlank, List.all_eq_true, decide_eq_true_eq] at h
  simp only [rowFalsy, List.all_eq_true]
  intro c hc
  rw [h c hc]
  rfl

theorem dropTrailing_eq_take (t : List Row) :
    dropTrailingEmptyRows t = t.take (dropTrailingEmptyRows t).length := by
  have hsuf : t.reverse.dropWhile rowFalsy <:+ t.reverse :=
    List.dropWhile_suffix _
  have hpre : dropTrailingEmptyRows t <+: t := by
    have h2 := List.reverse_prefix.mpr hsuf
    simpa [dropTrailingEmptyRows] using h2
  exact List.prefix_iff_eq_take.mp hpre

theorem dropTrailing_getLast_not_falsy (t : List Row)
    (h : dropTrailingEmptyRows t ≠ []) :
    rowFalsy ((dropTrailingEmptyRows t).getLast h) = false := by
  unfold dropTrailingEmptyRows at h ⊢
  rw [List.getLast_reverse]
  exact List.head_dropWhile_not rowFalsy t.reverse _

theorem mkStudent_originalRow {subjects : List String} {classNum : String}
    {idx : ℕ} {row : Row} {s : Student}
    (h : mkStudent subjects classNum idx row = some s) : s.originalRow = row := by
  unfold mkStudent at h
  dsimp only at h
  split at h
  · obtain rfl := Option.some.inj h
    rfl
  · exact Option.noConfusion h

theorem mkStudents_mem {subjects : List String} {classNum : String} :
    ∀ (i : ℕ) (l : List Row) (s : Student), s ∈ mkStudents subjects classNum i l →
      ∃ k, ∃ hk : k < l.length, s.originalRow = l.get ⟨k, hk⟩
  | _, [], s, hs => by cases hs
  | i, r :: rs, s, hs => by
    rw [mkStudents] at hs
    rcases hmk : mkStudent subjects classNum i r with _ | s'
    · rw [hmk] at hs
      obtain ⟨k, hk, hrow⟩ := mkStudents_mem (i + 1) rs s hs
      exact ⟨k + 1, by simpa using Nat.succ_lt_succ hk, hrow⟩
    · rw [hmk] at hs
      rcases List.mem_cons.mp hs with rfl | hs'
      · exact ⟨0, by simp, mkStudent_originalRow hmk⟩
      · obtain ⟨k, hk, hrow⟩ := mkStudents_mem (i + 1) rs s hs'
        exact ⟨k + 1, by simpa using Nat.succ_lt_succ hk, hrow⟩

theorem parseGrid_ok_students {grid : List Row} {res : ParseResult}
    (h : parseGrid grid = Except.ok res) :
    res.students =
      mkStudents (subjectsOf ((pruneRows (grid.drop (headerRowIndexOf grid))).getD 0 []))
        (extractMetadata grid).classNumber 0
        ((pruneRows (grid.drop (headerRowIndexOf grid))).drop 1) := by
  unfold parseGrid at h
  split at h
  · exact Except.noConfusion h
  · dsimp only at h
    split at h
    · exact Except.noConfusion h
    · split at h
      · exact Except.noConfusion h
      · obtain rfl := Except.ok.inj h
        rfl

/-- C3: after dropping trailing all-falsy rows, the pruning step drops
exactly one more row whenever anything beyond the header remains,
regardless of that row's content; consequently, whenever row `j` (after
the detected header) is the last non-empty row of the sheet, no parsed
student record originates from row `j` or later — students come only from
rows strictly between the header and `j`. -/
theorem c3_last_nonempty_row_never_student (grid : List Row) (j : ℕ)
    (hj : j < (grid.drop (headerRowIndexOf grid)).length) (h1 : 1 ≤ j)
    (hne : rowBlank ((grid.drop (headerRowIndexOf grid)).get ⟨j, hj⟩) = false)
    (hafter : ∀ i, ∀ hi : i < (grid.drop (headerRowIndexOf grid)).length, j < i →
      rowBlank ((grid.drop (headerRowIndexOf grid)).get ⟨i, hi⟩) = true) :
    (1 < (dropTrailingEmptyRows (grid.drop (headerRowIndexOf grid))).length →
      pruneRows (grid.drop (headerRowIndexOf grid)) =
        (dropTrailingEmptyRows (grid.drop (headerRowIndexOf grid))).dropLast) ∧
    (∀ res, parseGrid grid = Except.ok res → ∀ s ∈ res.students,
      ∃ i, ∃ hi : i < (grid.drop (headerRowIndexOf grid)).length,
        1 ≤ i ∧ i < j ∧
          s.originalRow = (grid.drop (headerRowIndexOf grid)).get ⟨i, hi⟩) := by
  constructor
  · intro h2
    unfold pruneRows
    rw [if_pos h2]
  · intro res hres s hs
    rw [parseGrid_ok_students hres] at hs
    obtain ⟨k, hk, hrow⟩ := mkStudents_mem 0 _ s hs
    by_cases h2 : 1 < (dropTrailingEmptyRows (grid.drop (headerRowIndexOf grid))).length
    · -- the pruned list is the one-shorter prefix of `t`
      have hprune : pruneRows (grid.drop (headerRowIndexOf grid)) =
          (dropTrailingEmptyRows (grid.drop (headerRowIndexOf grid))).dropLast := by
        unfold pruneRows
        rw [if_pos h2]
      have hne2 : dropTrailingEmptyRows (grid.drop (headerRowIndexOf grid)) ≠ [] := by
        intro hcon
        rw [hcon] at h2
        simp at h2
      have hlast := dropTrailing_getLast_not_falsy _ hne2
      have htake := dropTrailing_eq_take (grid.drop (headerRowIndexOf grid))
      have hlenle : (dropTrailingEmptyRows (grid.drop (headerRowIndexOf grid))).length ≤
          (grid.drop (headerRowIndexOf grid)).length := by
        have := congrArg List.length htake
        simp only [List.length_take] at this
        omega
      have hkb : k < (dropTrailingEmptyRows (grid.drop (headerRowIndexOf grid))).length - 1 - 1 := by
        have hkc := hk
        rw [hprune] at hkc
        simpa using hkc
      -- the last retained row of `e` sits at index `e.length - 1` of `t`
      -- and is not falsy, so `e.length - 1 ≤ j`.
      have hm1 : (dropTrailingEmptyRows (grid.drop (headerRowIndexOf grid))).length - 1 <
          (dropTrailingEmptyRows (grid.drop (headerRowIndexOf grid))).length := by omega
      have hlastq : (grid.drop (headerRowIndexOf grid))[(dropTrailingEmptyRows
          (grid.drop (headerRowIndexOf grid))).length - 1]? =
          some ((dropTrailingEmptyRows (grid.drop (headerRowIndexOf grid))).getLast hne2) := by
        have hq : (dropTrailingEmptyRows (grid.drop (headerRowIndexOf grid)))[(dropTrailingEmptyRows
            (grid.drop (headerRowIndexOf grid))).length - 1]? =
            some ((dropTrailingEmptyRows (grid.drop (headerRowIndexOf grid))).getLast hne2) := by
          simp [List.getLast_eq_getElem]
        calc (grid.drop (headerRowIndexOf grid))[(dropTrailingEmptyRows
              (grid.drop (headerRowIndexOf grid))).length - 1]?
            = ((grid.drop (headerRowIndexOf grid)).take (dropTrailingEmptyRows
              (grid.drop (headerRowIndexOf grid))).length)[(dropTrailingEmptyRows
              (grid.drop (headerRowIndexOf grid))).length - 1]? :=
              (List.getElem?_take_of_lt hm1).symm
          _ = _ := by rw [← htake]; exact hq
      have hmle : (dropTrailingEmptyRows (grid.drop (headerRowIndexOf grid))).length - 1 ≤ j := by
        by_contra hgt
        push_neg at hgt
        obtain ⟨hlt, hgeteq⟩ := List.getElem?_eq_some_iff.mp hlastq
        have hblank := rowBlank_falsy (hafter _ hlt hgt)
        rw [List.get_eq_getElem] at hblank
        rw [hgeteq] at hblank
        rw [hblank] at hlast
        exact Bool.noConfusion hlast
      -- translate the membership index through dropLast / drop / take
      have hrowq : (grid.drop (headerRowIndexOf grid))[k + 1]? = some s.originalRow := by
        have h0 : ((pruneRows (grid.drop (headerRowIndexOf grid))).drop 1)[k]? =
            some s.originalRow :=
          List.getElem?_eq_some_iff.mpr ⟨hk, by simpa [List.get_eq_getElem] using hrow.symm⟩
        rw [hprune] at h0
        rw [List.getElem?_drop] at h0
        rw [List.getElem?_dropLast, if_pos (by omega)] at h0
        rw [htake, List.getElem?_take_of_lt (by omega)] at h0
        rw [show k + 1 = 1 + k by omega]
        exact h0
      obtain ⟨hi, hgeteq⟩ := List.getElem?_eq_some_iff.mp hrowq
      refine ⟨k + 1, hi, by omega, by omega, ?_⟩
      rw [List.get_eq_getElem]
      exact hgeteq.symm
    · -- at most the header survives: no students at all
      have hprune : pruneRows (grid.drop (headerRowIndexOf grid)) =
          dropTrailingEmptyRows (grid.drop (headerRowIndexOf grid)) := by
        unfold pruneRows
        rw [if_neg h2]
      rw [hprune] at hk
      simp only [List.length_drop] at hk
      omega

/-- C3 witness: on `c3Grid` (header, one student row, a non-empty
summary row at index 2) the pruning drops exactly the summary row on top
of the empty-row stripping. -/
theorem c3_last_nonempty_row_never_student_witness :
    2 < (c3Grid.drop (headerRowIndexOf c3Grid)).length ∧
    rowBlank ((c3Grid.drop (headerRowIndexOf c3Grid)).getD 2 []) = false ∧
    1 < (dropTrailingEmptyRows (c3Grid.drop (headerRowIndexOf c3Grid))).length ∧
    pruneRows (c3Grid.drop (headerRowIndexOf c3Grid)) =
      (dropTrailingEmptyRows (c3Grid.drop (headerRowIndexOf c3Grid))).dropLast := by
  refine ⟨by decide, by decide, by decide, ?_⟩
  have hlen : (c3Grid.drop (headerRowIndexOf c3Grid)).length = 3 := by decide
  exact (c3_last_nonempty_row_never_student c3Grid 2 (by decide) (by decide)
    (by decide)
    (by intro i hi hlt; rw [hlen] at hi; omega)).1 (by decide)

theorem gradeStep_out_of_range (gd : List Cell) (acc : List (String × ℚ))
    (p : ℕ × String) (h : gd.length ≤ p.1) : gradeStep gd acc p = acc := by
  unfold gradeStep
  rw [List.getD_eq_getElem?_getD, List.getElem?_eq_none h]
  rfl

theorem fold_gradeStep_out (gd : List Cell) :
    ∀ (rest : List String) (m : ℕ) (acc : List (String × ℚ)),
      gd.length ≤ m →
      (rest.enumFrom m).foldl (gradeStep gd) acc = acc
  | [], _, _, _ => rfl
  | s :: rest, m, acc, h => by
    rw [List.enumFrom_cons, List.foldl_cons, gradeStep_out_of_range gd acc (m, s) h]
    exact fold_gradeStep_out gd rest (m + 1) acc (by omega)

theorem fold_gradeStep_last_store (gd : List Cell) (q : ℚ)
    (hq : coerceCell (gd.getD (gd.length - 1) Cell.empty) = some q)
    (h1 : 1 ≤ gd.length) :
    ∀ (ss : List String) (n : ℕ) (acc : List (String × ℚ)),
      n ≤ gd.length - 1 → gd.length - 1 < n + ss.length →
      ∃ acc2, (ss.enumFrom n).foldl (gradeStep gd) acc =
        (ss.getD (gd.length - 1 - n) "", q) :: acc2
  | [], n, acc, hn, hin => absurd hin (by simp only [List.length_nil]; omega)
  | s :: rest, n, acc, hn, hin => by
    rw [List.enumFrom_cons, List.foldl_cons]
    by_cases hcase : n = gd.length - 1
    · have hstep : gradeStep gd acc (n, s) = (s, q) :: acc := by
        unfold gradeStep
        rw [hcase, hq]
      rw [hstep, fold_gradeStep_out gd rest (n + 1) _ (by omega)]
      refine ⟨acc, ?_⟩
      rw [hcase]
      simp
    · have hlt : n < gd.length - 1 := by omega
      obtain ⟨acc2, heq⟩ := fold_gradeStep_last_store gd q hq h1 rest (n + 1)
        (gradeStep gd acc (n, s)) (by omega) (by simp at hin ⊢; omega)
      refine ⟨acc2, ?_⟩
      rw [heq]
      have hidx : gd.length - 1 - n = (gd.length - 1 - (n + 1)) + 1 := by omega
      rw [hidx]
      rfl

theorem buildGrades_last (subjects : List String) (gd : List Cell) (q : ℚ)
    (h1 : 1 ≤ gd.length) (hle : gd.length ≤ subjects.length)
    (hq : coerceCell (gd.getD (gd.length - 1) Cell.empty) = some q) :
    lookupGrade (buildGrades subjects gd) (subjects.getD (gd.length - 1) "") =
      some q := by
  obtain ⟨acc2, heq⟩ :=
    fold_gradeStep_last_store gd q hq h1 subjects 0 [] (by omega) (by omega)
  unfold buildGrades
  rw [show subjects.enum = subjects.enumFrom 0 from rfl, heq]
  unfold lookupGrade
  simp

theorem mkStudent_fields {subjects : List String} {classNum : String}
    {idx : ℕ} {row : Row} {s : Student}
    (h : mkStudent subjects classNum idx row = some s) :
    s.grades = buildGrades subjects (row.drop 5) ∧
      s.semesterAverage = semAvgOf (row.drop 5) := by
  unfold mkStudent at h
  dsimp only at h
  split at h
  · obtain rfl := Option.some.inj h
    exact ⟨rfl, rfl⟩
  · exact Option.noConfusion h

/-- C9: for every parsed student row with a non-empty grade area (cells
from column 5 onward), the semester average is the coerced last cell of
that grade area; and when the grade area has no more cells than the
candidate-subject list, the same coerced value is stored both as the last
present subject's grade and as the semester average. -/
theorem c9_semester_average_from_last_grade_cell
    (subjects : List String) (classNum : String) (idx : ℕ) (row : Row)
    (s : Student) (hmk : mkStudent subjects classNum idx row = some s)
    (hne : 5 < row.length) :
    (∀ c, (row.drop 5).getLast? = some c →
      s.semesterAverage = (coerceCell c).getD 0) ∧
    (row.length - 5 ≤ subjects.length →
      ∀ c q, (row.drop 5).getLast? = some c → coerceCell c = some q →
        lookupGrade s.grades (subjects.getD (row.length - 6) "") = some q ∧
          s.semesterAverage = q) := by
  obtain ⟨hgr, hav⟩ := mkStudent_fields hmk
  have hlen : (row.drop 5).length = row.length - 5 := by simp
  have hgd1 : 1 ≤ (row.drop 5).length := by omega
  constructor
  · intro c hc
    rw [hav]
    unfold semAvgOf
    rw [hc]
  · intro hm c q hc hq
    have hgetD : (row.drop 5).getD ((row.drop 5).length - 1) Cell.empty = c := by
      rw [List.getD_eq_getElem?_getD, ← List.getLast?_eq_getElem?, hc]
      rfl
    have hq2 : coerceCell ((row.drop 5).getD ((row.drop 5).length - 1) Cell.empty) =
        some q := by rw [hgetD]; exact hq
    have hle2 : (row.drop 5).length ≤ subjects.length := by omega
    have hlast := buildGrades_last subjects (row.drop 5) q hgd1 hle2 hq2
    constructor
    · rw [hgr]
      have hidx2 : (row.drop 5).length - 1 = row.length - 6 := by omega
      rw [hidx2] at hlast
      exact hlast
    · rw [hav]
      unfold semAvgOf
      rw [hc]
      show (coerceCell c).getD 0 = q
      rw [hq]
      rfl

/-- C9 witness: the student row of `wGridA` against subject list `["S1",
"S2"]` — the grade area `[12, 11]` has exactly two cells, so the coerced
`11` lands both in subject `S2` and in the semester average. -/
theorem c9_semester_average_from_last_grade_cell_witness :
    mkStudent ["S1", "S2"] "C1" 0 wRowAli =
      some { id := "temp-0", name := "Ali", gender := "ذكر",
             grades := [("S2", 11), ("S1", 12)], semesterAverage := 11,
             originalRow := wRowAli, isRepeater := false,
             sourceClass := "C1" } ∧
    5 < wRowAli.length ∧
    wRowAli.length - 5 ≤ (["S1", "S2"] : List String).length ∧
    (wRowAli.drop 5).getLast? = some (Cell.num 11) ∧
    coerceCell (Cell.num 11) = some 11 ∧
    lookupGrade [("S2", 11), ("S1", 12)] ((["S1", "S2"] : List String).getD
      (wRowAli.length - 6) "") = some 11 ∧
    (11 : ℚ) = 11 := by
  refine ⟨by rfl, by decide, by decide, by rfl, by rfl, ?_, rfl⟩
  exact ((c9_semester_average_from_last_grade_cell ["S1", "S2"] "C1" 0 wRowAli _
    (by rfl) (by decide)).2 (by decide) (Cell.num 11) 11 (by rfl) (by rfl)).1

theorem le_foldr_max : ∀ (L : List ℕ) (x : ℕ), x ∈ L → x ≤ L.foldr max 0
  | [], x, hx => absurd hx (List.not_mem_nil x)
  | a :: L, x, hx => by
    rcases List.mem_cons.mp hx with rfl | hx2
    · exact le_max_left _ _
    · exact le_trans (le_foldr_max L x hx2) (le_max_right _ _)

theorem foldr_max_zero_or_mem : ∀ L : List ℕ, L.foldr max 0 = 0 ∨ L.foldr max 0 ∈ L
  | [] => Or.inl rfl
  | a :: L => by
    rcases foldr_max_zero_or_mem L with h | h
    · right
      rw [List.foldr_cons, h, Nat.max_zero]
      exact List.mem_cons_self a L
    · by_cases hc : L.foldr max 0 ≤ a
      · right
        rw [List.foldr_cons, max_eq_left hc]
        exact List.mem_cons_self a L
      · right
        rw [List.foldr_cons, max_eq_right (le_of_not_le hc)]
        exact List.mem_cons_of_mem a h

theorem count_le_maxFreqOf (l : List ℚ) (v : ℚ) : l.count v ≤ maxFreqOf l := by
  by_cases hv : v ∈ l
  · exact le_foldr_max _ _ (List.mem_map.mpr ⟨v, hv, rfl⟩)
  · rw [List.count_eq_zero.mpr hv]
    exact Nat.zero_le _

theorem maxFreqOf_le (l : List ℚ) (M : ℕ) (h : ∀ v ∈ l, l.count v ≤ M) :
    maxFreqOf l ≤ M := by
  rcases foldr_max_zero_or_mem (l.map fun v => l.count v) with h0 | hmem
  · unfold maxFreqOf
    omega
  · obtain ⟨w, hw, hwe⟩ := List.mem_map.mp hmem
    unfold maxFreqOf
    rw [← hwe]
    exact h w hw

theorem maxFreqOf_concat (p : List ℚ) (v : ℚ) :
    maxFreqOf (p ++ [v]) = max (maxFreqOf p) (p.count v + 1) := by
  apply le_antisymm
  · apply maxFreqOf_le
    intro w _
    rw [List.count_append]
    by_cases hwv : w = v
    · subst hwv
      rw [List.count_singleton_self]
      exact le_max_right _ _
    · rw [List.count_eq_zero.mpr
        (fun hm => hwv (List.mem_singleton.mp hm))]
      have := count_le_maxFreqOf p w
      omega
  · apply max_le
    · rcases foldr_max_zero_or_mem (p.map fun w => p.count w) with h0 | hmem
      · unfold maxFreqOf
        omega
      · obtain ⟨w, hw, hwe⟩ := List.mem_map.mp hmem
        have h1 : p.count w ≤ (p ++ [v]).count w := by
          rw [List.count_append]
          omega
        have h2 := count_le_maxFreqOf (p ++ [v]) w
        unfold maxFreqOf
        rw [← hwe]
        unfold maxFreqOf at h2
        omega
    · have h2 := count_le_maxFreqOf (p ++ [v]) v
      rw [List.count_append, List.count_singleton_self] at h2
      exact h2

theorem count_fun_concat (p : List ℚ) (v : ℚ) :
    (fun w => if w = v then p.count v + 1 else p.count w) =
      fun w => (p ++ [v]).count w := by
  funext w
  rw [List.count_append]
  by_cases hw : w = v
  · subst hw
    rw [if_pos rfl, List.count_singleton_self]
  · rw [if_neg hw, List.count_eq_zero.mpr
      (fun hm => hw (List.mem_singleton.mp hm))]
    omega

theorem take_concat_of_le {p : List ℚ} {v : ℚ} {n : ℕ} (h : n ≤ p.length) :
    (p ++ [v]).take n = p.take n := by
  rw [List.take_append_eq_append_take, Nat.sub_eq_zero_of_le h,
    List.take_zero, List.append_nil]

theorem get_concat_of_lt {p : List ℚ} {v : ℚ} {j : ℕ} (hj2 : j < p.length)
    (hj : j < (p ++ [v]).length) :
    (p ++ [v]).get ⟨j, hj⟩ = p.get ⟨j, hj2⟩ := by
  rw [List.get_eq_getElem, List.get_eq_getElem, List.getElem_append_left hj2]

theorem modeInv_concat_update (p : List ℚ) (v : ℚ)
    (hlt : maxFreqOf p < p.count v + 1) : ModeInv (p ++ [v]) v := by
  have hMF : maxFreqOf (p ++ [v]) = p.count v + 1 := by
    rw [maxFreqOf_concat]
    omega
  have hgetv : (p ++ [v]).get ⟨p.length, by simp⟩ = v := by
    simp
  refine ⟨p.length, by simp, hgetv.symm, ?_, ?_⟩
  · rw [hgetv, List.take_of_length_le (by simp), List.count_append,
      List.count_singleton_self, hMF]
  · intro j hj hji
    have hj2 : j < p.length := hji
    rw [take_concat_of_le (by omega), get_concat_of_lt hj2, hMF]
    calc (p.take (j + 1)).count (p.get ⟨j, hj2⟩)
        ≤ p.count (p.get ⟨j, hj2⟩) := (List.take_sublist (j + 1) p).count_le _
      _ ≤ maxFreqOf p := count_le_maxFreqOf p _
      _ < p.count v + 1 := hlt

theorem modeInv_concat_keep (p : List ℚ) (v mode : ℚ) (hp : p ≠ [])
    (hinv : ModeInv p mode) (hle : p.count v + 1 ≤ maxFreqOf p) :
    ModeInv (p ++ [v]) mode := by
  have hMF : maxFreqOf (p ++ [v]) = maxFreqOf p := by
    rw [maxFreqOf_concat]
    omega
  obtain ⟨i, hi, hmode, hreach, hmin⟩ := hinv
  refine ⟨i, by simp; omega, ?_, ?_, ?_⟩
  · rw [get_concat_of_lt hi]
    exact hmode
  · rw [take_concat_of_le (by omega), get_concat_of_lt hi, hMF]
    exact hreach
  · intro j hj hji
    by_cases hjp : j < p.length
    · rw [take_concat_of_le (by omega), get_concat_of_lt hjp, hMF]
      exact hmin j hjp hji
    · omega

theorem modeLoop_inv : ∀ (rest p : List ℚ) (mode : ℚ), p ≠ [] →
    ModeInv p mode →
    ModeInv (p ++ rest) (modeLoop (fun v => p.count v) (maxFreqOf p) mode rest)
  | [], p, mode, _, hinv => by
    rw [modeLoop, List.append_nil]
    exact hinv
  | v :: rs, p, mode, hp, hinv => by
    rw [modeLoop]
    rw [count_fun_concat]
    by_cases hcase : maxFreqOf p < p.count v + 1
    · rw [if_pos hcase]
      have hMF : p.count v + 1 = maxFreqOf (p ++ [v]) := by
        rw [maxFreqOf_concat]
        omega
      rw [hMF, List.append_cons]
      exact modeLoop_inv rs (p ++ [v]) v (by simp)
        (modeInv_concat_update p v hcase)
    · rw [if_neg hcase]
      have hMF : maxFreqOf p = maxFreqOf (p ++ [v]) := by
        rw [maxFreqOf_concat]
        omega
      rw [hMF, List.append_cons]
      exact modeLoop_inv rs (p ++ [v]) mode (by simp)
        (modeInv_concat_keep p v mode hp hinv (by omega))

/-- C7: `calculateMode` returns the value with the highest frequency,
breaking ties in favour of the first value to reach the maximum frequency
while scanning in input order: the returned mode sits at the least index
whose running frequency attains the maximum frequency; in particular
`calculateMode [1,2,2,3,3,3] = 3` and `calculateMode [1,1,2,2] = 1`. -/
theorem c7_mode_highest_frequency_first_reached :
    (∀ l : List ℚ, l ≠ [] →
      ∃ i, ∃ hi : i < l.length, calculateMode l = l.get ⟨i, hi⟩ ∧
        l.count (l.get ⟨i, hi⟩) = maxFreqOf l ∧
        (l.take (i + 1)).count (l.get ⟨i, hi⟩) = maxFreqOf l ∧
        ∀ j, ∀ hj : j < l.length, j < i →
          (l.take (j + 1)).count (l.get ⟨j, hj⟩) < maxFreqOf l) ∧
    calculateMode [1, 2, 2, 3, 3, 3] = 3 ∧
    calculateMode [1, 1, 2, 2] = 1 := by
  refine ⟨?_, by decide, by decide⟩
  intro l hl
  obtain ⟨d, rest, rfl⟩ := List.exists_cons_of_ne_nil hl
  have hfun : (fun w => if w = d then (fun _ : ℚ => (0 : ℕ)) d + 1
      else (fun _ : ℚ => (0 : ℕ)) w) = fun v => ([d] : List ℚ).count v := by
    funext w
    by_cases hw : w = d
    · subst hw
      rw [if_pos rfl, List.count_singleton_self]
    · rw [if_neg hw,
        List.count_eq_zero.mpr (fun hm => hw (List.mem_singleton.mp hm))]
  have hmax1 : maxFreqOf [d] = 1 := by
    unfold maxFreqOf
    rw [List.map_cons, List.map_nil, List.count_singleton_self,
      List.foldr_cons, List.foldr_nil]
    omega
  have hstep : calculateMode (d :: rest) =
      modeLoop (fun v => ([d] : List ℚ).count v) (maxFreqOf [d]) d rest := by
    rw [calculateMode, modeLoop]
    rw [if_pos (by omega)]
    rw [hfun, hmax1]
  have hinv := modeLoop_inv rest [d] d (by simp)
    ⟨0, by simp, by simp, by
      rw [hmax1]
      simp, fun j hj hji => absurd hji (by omega)⟩
  rw [List.singleton_append] at hinv
  obtain ⟨i, hi, hmode, hreach, hmin⟩ := hinv
  refine ⟨i, hi, by rw [hstep]; exact hmode, ?_, hreach, hmin⟩
  exact le_antisymm (count_le_maxFreqOf _ _)
    (hreach ▸ (List.take_sublist _ _).count_le _)

/-- C7 witness: the characterization applied to the concrete list
`[1,2,2,3,3,3]`. -/
theorem c7_mode_highest_frequency_first_reached_witness :
    ([1, 2, 2, 3, 3, 3] : List ℚ) ≠ [] ∧
    (∃ i, ∃ hi : i < ([1, 2, 2, 3, 3, 3] : List ℚ).length,
      calculateMode [1, 2, 2, 3, 3, 3] =
        ([1, 2, 2, 3, 3, 3] : List ℚ).get ⟨i, hi⟩ ∧
      ([1, 2, 2, 3, 3, 3] : List ℚ).count
        (([1, 2, 2, 3, 3, 3] : List ℚ).get ⟨i, hi⟩) =
        maxFreqOf [1, 2, 2, 3, 3, 3] ∧
      (([1, 2, 2, 3, 3, 3] : List ℚ).take (i + 1)).count
        (([1, 2, 2, 3, 3, 3] : List ℚ).get ⟨i, hi⟩) =
        maxFreqOf [1, 2, 2, 3, 3, 3] ∧
      ∀ j, ∀ hj : j < ([1, 2, 2, 3, 3, 3] : List ℚ).length, j < i →
        (([1, 2, 2, 3, 3, 3] : List ℚ).take (j + 1)).count
          (([1, 2, 2, 3, 3, 3] : List ℚ).get ⟨j, hj⟩) <
          maxFreqOf [1, 2, 2, 3, 3, 3]) := by
  exact ⟨by decide,
    c7_mode_highest_frequency_first_reached.1 [1, 2, 2, 3, 3, 3] (by decide)⟩

theorem sum_sq_expand (t : ℚ) :
    ∀ l : List (ℚ × ℚ),
      (l.map (fun p => (t * p.1 + p.2) ^ 2)).sum =
        t ^ 2 * (l.map (fun p => p.1 ^ 2)).sum +
          2 * t * (l.map (fun p => p.1 * p.2)).sum +
          (l.map (fun p => p.2 ^ 2)).sum
  | [] => by simp
  | p :: l => by
    simp only [List.map_cons, List.sum_cons, sum_sq_expand t l]
    ring

theorem sum_sq_nonneg_fst (l : List (ℚ × ℚ)) :
    0 ≤ (l.map (fun p => p.1 ^ 2)).sum := by
  apply List.sum_nonneg
  intro a ha
  obtain ⟨p, _, rfl⟩ := List.mem_map.mp ha
  exact sq_nonneg _

theorem sum_sq_nonneg_snd (l : List (ℚ × ℚ)) :
    0 ≤ (l.map (fun p => p.2 ^ 2)).sum := by
  apply List.sum_nonneg
  intro a ha
  obtain ⟨p, _, rfl⟩ := List.mem_map.mp ha
  exact sq_nonneg _

theorem sum_sq_fst_zero : ∀ l : List (ℚ × ℚ),
    (l.map (fun p => p.1 ^ 2)).sum = 0 → ∀ p ∈ l, p.1 = 0
  | [], _, p, hp => absurd hp (List.not_mem_nil p)
  | q :: l, h, p, hp => by
    rw [List.map_cons, List.sum_cons] at h
    have h1 : 0 ≤ q.1 ^ 2 := sq_nonneg _
    have h2 := sum_sq_nonneg_fst l
    rcases List.mem_cons.mp hp with rfl | hp2
    · have : p.1 ^ 2 = 0 := by linarith
      exact pow_eq_zero_iff (by omega) |>.mp this
    · exact sum_sq_fst_zero l (by linarith) p hp2

theorem list_cauchy_schwarz (l : List (ℚ × ℚ)) :
    ((l.map fun p => p.1 * p.2).sum) ^ 2 ≤
      ((l.map fun p => p.1 ^ 2).sum) * ((l.map fun p => p.2 ^ 2).sum) := by
  have hA := sum_sq_nonneg_fst l
  have hB := sum_sq_nonneg_snd l
  by_cases hA0 : (l.map fun p => p.1 ^ 2).sum = 0
  · have hC : (l.map fun p => p.1 * p.2).sum = 0 := by
      apply List.sum_eq_zero
      intro a ha
      obtain ⟨p, hp, rfl⟩ := List.mem_map.mp ha
      rw [sum_sq_fst_zero l hA0 p hp]
      ring
    rw [hC, hA0]
    norm_num
  · have hApos : 0 < (l.map fun p => p.1 ^ 2).sum := lt_of_le_of_ne hA (Ne.symm hA0)
    have key : 0 ≤ (-(((l.map fun p => p.1 * p.2).sum) /
        ((l.map fun p => p.1 ^ 2).sum))) ^ 2 * (l.map fun p => p.1 ^ 2).sum +
        2 * (-(((l.map fun p => p.1 * p.2).sum) /
        ((l.map fun p => p.1 ^ 2).sum))) * (l.map fun p => p.1 * p.2).sum +
        (l.map fun p => p.2 ^ 2).sum := by
      rw [← sum_sq_expand]
      apply List.sum_nonneg
      intro a ha
      obtain ⟨p, _, rfl⟩ := List.mem_map.mp ha
      exact sq_nonneg _
    have hkey2 : 0 ≤ (l.map fun p => p.2 ^ 2).sum -
        ((l.map fun p => p.1 * p.2).sum) ^ 2 / ((l.map fun p => p.1 ^ 2).sum) := by
      have heq : (-(((l.map fun p => p.1 * p.2).sum) /
          ((l.map fun p => p.1 ^ 2).sum))) ^ 2 * (l.map fun p => p.1 ^ 2).sum +
          2 * (-(((l.map fun p => p.1 * p.2).sum) /
          ((l.map fun p => p.1 ^ 2).sum))) * (l.map fun p => p.1 * p.2).sum +
          (l.map fun p => p.2 ^ 2).sum =
          (l.map fun p => p.2 ^ 2).sum -
          ((l.map fun p => p.1 * p.2).sum) ^ 2 / ((l.map fun p => p.1 ^ 2).sum) := by
        field_simp
        ring
      rw [heq] at key
      exact key
    rw [sub_nonneg, div_le_iff₀ hApos] at hkey2
    linarith

theorem sum_sq_dev_nonneg (x : List ℚ) (c : ℚ) :
    0 ≤ (x.map (fun v => (v - c) ^ 2)).sum := by
  apply List.sum_nonneg
  intro a ha
  obtain ⟨v, _, rfl⟩ := List.mem_map.mp ha
  exact sq_nonneg _

theorem map_fst_zip_comp (x y : List ℚ) (g : ℚ → ℚ) (h : x.length ≤ y.length) :
    (x.zip y).map (fun p => g p.1) = x.map g := by
  conv_rhs => rw [← List.map_fst_zip x y h, List.map_map]
  rfl

theorem map_snd_zip_comp (x y : List ℚ) (g : ℚ → ℚ) (h : y.length ≤ x.length) :
    (x.zip y).map (fun p => g p.2) = y.map g := by
  conv_rhs => rw [← List.map_snd_zip x y h, List.map_map]
  rfl

theorem correlation_abs_le_one (x y : List ℚ) :
    |calculateCorrelation x y| ≤ 1 := by
  unfold calculateCorrelation
  split
  · simp
  · dsimp only
    split
    · simp
    · rename_i hcond hdenom
      push_neg at hcond hdenom
      obtain ⟨hlen, hn0⟩ := hcond
      obtain ⟨hdx, hdy⟩ := hdenom
      have hSx : (0 : ℚ) ≤ (x.map (fun v => (v - calculateAverage x) ^ 2)).sum :=
        sum_sq_dev_nonneg x _
      have hSy : (0 : ℚ) ≤ (y.map (fun v => (v - calculateAverage y) ^ 2)).sum :=
        sum_sq_dev_nonneg y _
      have hdxpos : 0 < Real.sqrt (((x.map (fun v => (v - calculateAverage x) ^ 2)).sum : ℚ) : ℝ) :=
        lt_of_le_of_ne (Real.sqrt_nonneg _) (Ne.symm hdx)
      have hdypos : 0 < Real.sqrt (((y.map (fun v => (v - calculateAverage y) ^ 2)).sum : ℚ) : ℝ) :=
        lt_of_le_of_ne (Real.sqrt_nonneg _) (Ne.symm hdy)
      -- Cauchy-Schwarz over the centered pair list
      have hcs := list_cauchy_schwarz
        ((x.zip y).map (fun p => (p.1 - calculateAverage x, p.2 - calculateAverage y)))
      rw [List.map_map, List.map_map, List.map_map] at hcs
      simp only [Function.comp_def] at hcs
      have hxs : (x.zip y).map (fun p => (p.1 - calculateAverage x) ^ 2) =
          x.map (fun v => (v - calculateAverage x) ^ 2) :=
        map_fst_zip_comp x y (fun v => (v - calculateAverage x) ^ 2) (le_of_eq hlen)
      have hys : (x.zip y).map (fun p => (p.2 - calculateAverage y) ^ 2) =
          y.map (fun v => (v - calculateAverage y) ^ 2) :=
        map_snd_zip_comp x y (fun v => (v - calculateAverage y) ^ 2) (ge_of_eq hlen)
      rw [hxs, hys] at hcs
      -- hcs : numerator^2 ≤ Sx * Sy over ℚ
      have hcsR : (((((x.zip y).map
          (fun p => (p.1 - calculateAverage x) * (p.2 - calculateAverage y))).sum : ℚ) : ℝ)) ^ 2 ≤
          (((x.map (fun v => (v - calculateAverage x) ^ 2)).sum : ℚ) : ℝ) *
          (((y.map (fun v => (v - calculateAverage y) ^ 2)).sum : ℚ) : ℝ) := by
        exact_mod_cast hcs
      have habs : |((((x.zip y).map
          (fun p => (p.1 - calculateAverage x) * (p.2 - calculateAverage y))).sum : ℚ) : ℝ)| ≤
          Real.sqrt (((x.map (fun v => (v - calculateAverage x) ^ 2)).sum : ℚ) : ℝ) *
          Real.sqrt (((y.map (fun v => (v - calculateAverage y) ^ 2)).sum : ℚ) : ℝ) := by
        rw [← Real.sqrt_sq_eq_abs, ← Real.sqrt_mul (by exact_mod_cast hSx)]
        exact Real.sqrt_le_sqrt hcsR
      rw [abs_div, abs_of_pos (mul_pos hdxpos hdypos)]
      rw [div_le_one (mul_pos hdxpos hdypos)]
      exact habs

theorem correlation_symm (x y : List ℚ) :
    calculateCorrelation x y = calculateCorrelation y x := by
  unfold calculateCorrelation
  by_cases h1 : x.length ≠ y.length ∨ x.length = 0
  · have h1y : y.length ≠ x.length ∨ y.length = 0 := by
      rcases h1 with h | h
      · exact Or.inl (Ne.symm h)
      · by_cases hy : y.length = x.length
        · exact Or.inr (by omega)
        · exact Or.inl hy
    rw [if_pos h1, if_pos h1y]
  · have h1y : ¬(y.length ≠ x.length ∨ y.length = 0) := by
      push_neg at h1 ⊢
      omega
    rw [if_neg h1, if_neg h1y]
    dsimp only
    have hnum : ((y.zip x).map
        (fun p => (p.1 - calculateAverage y) * (p.2 - calculateAverage x))).sum =
        ((x.zip y).map
        (fun p => (p.1 - calculateAverage x) * (p.2 - calculateAverage y))).sum := by
      rw [← List.zip_swap x y, List.map_map]
      simp only [Function.comp_def, Prod.fst_swap, Prod.snd_swap]
      exact congrArg List.sum (List.map_congr_left (fun p _ => by ring))
    rw [hnum]
    by_cases hdx : Real.sqrt (((x.map (fun v => (v - calculateAverage x) ^ 2)).sum : ℚ) : ℝ) = 0 <;>
      by_cases hdy : Real.sqrt (((y.map (fun v => (v - calculateAverage y) ^ 2)).sum : ℚ) : ℝ) = 0
    · rw [if_pos (Or.inl hdx), if_pos (Or.inl hdy)]
    · rw [if_pos (Or.inl hdx), if_pos (Or.inr hdx)]
    · rw [if_pos (Or.inr hdy), if_pos (Or.inl hdy)]
    · rw [if_neg (by tauto), if_neg (by tauto)]
      rw [mul_comm]

/-- C6: for equal-length series, Pearson correlation is symmetric and its
value always lies in [-1, 1]. -/
theorem c6_correlation_symmetric_bounded (x y : List ℚ)
    (hlen : x.length = y.length) :
    calculateCorrelation x y = calculateCorrelation y x ∧
    -1 ≤ calculateCorrelation x y ∧ calculateCorrelation x y ≤ 1 :=
  ⟨correlation_symm x y, (abs_le.mp (correlation_abs_le_one x y)).1,
    (abs_le.mp (correlation_abs_le_one x y)).2⟩

/-- C6 witness: the concrete series `[1,2]` and `[1,3]`. -/
theorem c6_correlation_symmetric_bounded_witness :
    ([1, 2] : List ℚ).length = ([1, 3] : List ℚ).length ∧
    (calculateCorrelation [1, 2] [1, 3] = calculateCorrelation [1, 3] [1, 2] ∧
      -1 ≤ calculateCorrelation [1, 2] [1, 3] ∧
      calculateCorrelation [1, 2] [1, 3] ≤ 1) :=
  ⟨by decide, c6_correlation_symmetric_bounded [1, 2] [1, 3] (by decide)⟩

theorem toDigitsCore_acc (b : ℕ) : ∀ (fuel n : ℕ) (ds : List Char),
    Nat.toDigitsCore b fuel n ds = Nat.toDigitsCore b fuel n [] ++ ds
  | 0, _, _ => by simp [Nat.toDigitsCore]
  | fuel + 1, n, ds => by
    by_cases h : n / b = 0
    · simp [Nat.toDigitsCore, h]
    · simp only [Nat.toDigitsCore, h, if_false]
      rw [toDigitsCore_acc b fuel (n / b) (Nat.digitChar (n % b) :: ds),
        toDigitsCore_acc b fuel (n / b) [Nat.digitChar (n % b)]]
      simp

theorem toDigitsCore_fuel_irrel (n : ℕ) :
    ∀ f₁ f₂ : ℕ, n < f₁ → n < f₂ →
      Nat.toDigitsCore 10 f₁ n [] = Nat.toDigitsCore 10 f₂ n [] := by
  induction n using Nat.strong_induction_on with
  | _ n ih =>
    intro f₁ f₂ h₁ h₂
    match f₁, f₂ with
    | g₁ + 1, g₂ + 1 =>
      by_cases h : n / 10 = 0
      · simp [Nat.toDigitsCore, h]
      · simp only [Nat.toDigitsCore, h, if_false]
        rw [toDigitsCore_acc 10 g₁, toDigitsCore_acc 10 g₂]
        have hdiv : n / 10 < n := Nat.div_lt_self (by omega) (by omega)
        rw [ih (n / 10) hdiv g₁ g₂ (by omega) (by omega)]

theorem toDigits_lt10 (n : ℕ) (h : n < 10) :
    Nat.toDigits 10 n = [Nat.digitChar n] := by
  unfold Nat.toDigits
  simp [Nat.toDigitsCore, Nat.div_eq_of_lt h, Nat.mod_eq_of_lt h]

theorem toDigits_ge10 (n : ℕ) (h : 10 ≤ n) :
    Nat.toDigits 10 n = Nat.toDigits 10 (n / 10) ++ [Nat.digitChar (n % 10)] := by
  have hne : ¬ n / 10 = 0 := by
    intro hc
    have := Nat.div_eq_of_lt (show n < 10 by
      by_contra hge
      push_neg at hge
      omega)
    omega
  conv_lhs => rw [Nat.toDigits]
  show Nat.toDigitsCore 10 (n + 1) n [] = _
  simp only [Nat.toDigitsCore, hne, if_false]
  rw [toDigitsCore_acc 10 n]
  have hdiv : n / 10 < n := Nat.div_lt_self (by omega) (by omega)
  rw [toDigitsCore_fuel_irrel (n / 10) n (n / 10 + 1) (by omega) (by omega)]
  rfl

theorem digitChar_isDigit : ∀ m, m < 10 → (Nat.digitChar m).isDigit = true := by
  decide

theorem toDigits_all_digits (n : ℕ) :
    ∀ c ∈ Nat.toDigits 10 n, c.isDigit = true := by
  induction n using Nat.strong_induction_on with
  | _ n ih =>
    by_cases h : n < 10
    · rw [toDigits_lt10 n h]
      intro c hc
      rw [List.mem_singleton.mp hc]
      exact digitChar_isDigit n h
    · push_neg at h
      rw [toDigits_ge10 n h]
      intro c hc
      rcases List.mem_append.mp hc with hc1 | hc2
      · exact ih (n / 10) (Nat.div_lt_self (by omega) (by omega)) c hc1
      · rw [List.mem_singleton.mp hc2]
        exact digitChar_isDigit _ (Nat.mod_lt n (by omega))

theorem toDigits_ne_nil (n : ℕ) : Nat.toDigits 10 n ≠ [] := by
  by_cases h : n < 10
  · rw [toDigits_lt10 n h]
    simp
  · push_neg at h
    rw [toDigits_ge10 n h]
    simp

theorem digitChar_inj_lt10 :
    ∀ a, a < 10 → ∀ b, b < 10 → Nat.digitChar a = Nat.digitChar b → a = b := by
  decide

theorem toDigits_inj (m : ℕ) :
    ∀ n, Nat.toDigits 10 m = Nat.toDigits 10 n → m = n := by
  induction m using Nat.strong_induction_on with
  | _ m ih =>
    intro n h
    by_cases hm : m < 10 <;> by_cases hn : n < 10
    · rw [toDigits_lt10 m hm, toDigits_lt10 n hn] at h
      exact digitChar_inj_lt10 m hm n hn (List.cons.inj h).1
    · push_neg at hn
      rw [toDigits_lt10 m hm, toDigits_ge10 n hn] at h
      have hlen := congrArg List.length h
      simp only [List.length_singleton, List.length_append] at hlen
      have := List.length_pos.mpr (toDigits_ne_nil (n / 10))
      omega
    · push_neg at hm
      rw [toDigits_ge10 m hm, toDigits_lt10 n hn] at h
      have hlen := congrArg List.length h
      simp only [List.length_singleton, List.length_append] at hlen
      have := List.length_pos.mpr (toDigits_ne_nil (m / 10))
      omega
    · push_neg at hm hn
      rw [toDigits_ge10 m hm, toDigits_ge10 n hn] at h
      obtain ⟨h1, h2⟩ := List.append_inj' h rfl
      have hdiv : m / 10 = n / 10 :=
        ih (m / 10) (Nat.div_lt_self (by omega) (by omega)) (n / 10) h1
      have hmod : m % 10 = n % 10 :=
        digitChar_inj_lt10 _ (Nat.mod_lt m (by omega)) _ (Nat.mod_lt n (by omega))
          (List.cons.inj h2).1
      omega

theorem natRepr_inj {m n : ℕ} (h : Nat.repr m = Nat.repr n) : m = n := by
  apply toDigits_inj
  have := congrArg String.data h
  simpa [Nat.repr, List.asString] using this

theorem natRepr_all_digits (n : ℕ) :
    ∀ c ∈ (Nat.repr n).data, c.isDigit = true := by
  intro c hc
  apply toDigits_all_digits n
  simpa [Nat.repr, List.asString] using hc

theorem natRepr_data (n : ℕ) : (Nat.repr n).data = Nat.toDigits 10 n := rfl

theorem digit_split : ∀ (a b rest₁ rest₂ : List Char),
    (∀ c ∈ a, c.isDigit = true) → (∀ c ∈ b, c.isDigit = true) →
    a ++ '-' :: rest₁ = b ++ '-' :: rest₂ → a = b ∧ rest₁ = rest₂
  | [], [], _, _, _, _, h => ⟨rfl, (List.cons.inj h).2⟩
  | [], c :: b, _, _, _, hb, h => by
    have hc : c = '-' := ((List.cons.inj h).1).symm
    have hd := hb c (List.mem_cons_self c b)
    rw [hc] at hd
    exact absurd hd (by decide)
  | c :: a, [], _, _, ha, _, h => by
    have hc : c = '-' := (List.cons.inj h).1
    have hd := ha c (List.mem_cons_self c a)
    rw [hc] at hd
    exact absurd hd (by decide)
  | c₁ :: a, c₂ :: b, r₁, r₂, ha, hb, h => by
    obtain ⟨hc, ht⟩ := List.cons.inj h
    obtain ⟨h1, h2⟩ := digit_split a b r₁ r₂
      (fun c hc2 => ha c (List.mem_cons_of_mem _ hc2))
      (fun c hc2 => hb c (List.mem_cons_of_mem _ hc2)) ht
    exact ⟨by rw [hc, h1], h2⟩

theorem mkId_inj {f₁ s₁ f₂ s₂ : ℕ} (h : mkId f₁ s₁ = mkId f₂ s₂) :
    f₁ = f₂ ∧ s₁ = s₂ := by
  have hd := congrArg String.data h
  simp only [mkId, String.data_append] at hd
  have htos : ∀ n : ℕ, (toString n).data = Nat.toDigits 10 n := fun _ => rfl
  rw [htos, htos, htos, htos] at hd
  simp only [List.cons_append, List.nil_append, List.append_assoc] at hd
  have hd2 := (List.cons.inj hd).2
  obtain ⟨hA, hB⟩ := digit_split _ _ _ _ (toDigits_all_digits f₁)
    (toDigits_all_digits f₂) hd2
  exact ⟨toDigits_inj f₁ f₂ hA,
    toDigits_inj s₁ s₂ (List.cons.inj hB).2⟩

theorem mkId_uncurried_injective :
    Function.Injective (fun p : ℕ × ℕ => mkId p.1 p.2) := by
  intro p₁ p₂ h
  obtain ⟨h1, h2⟩ := mkId_inj h
  exact Prod.ext h1 h2

theorem expectedPairs_fst_ge : ∀ (cs : List ℕ) (fi : ℕ) (p : ℕ × ℕ),
    p ∈ expectedPairs fi cs → fi ≤ p.1
  | [], fi, p, hp => absurd hp (List.not_mem_nil p)
  | c :: cs, fi, p, hp => by
    rcases List.mem_append.mp hp with h | h
    · obtain ⟨si, _, rfl⟩ := List.mem_map.mp h
      exact le_refl fi
    · exact le_trans (by omega) (expectedPairs_fst_ge cs (fi + 1) p h)

theorem expectedPairs_nodup : ∀ (cs : List ℕ) (fi : ℕ),
    (expectedPairs fi cs).Nodup
  | [], _ => List.nodup_nil
  | c :: cs, fi => by
    rw [expectedPairs]
    apply List.Nodup.append
    · exact (List.nodup_range c).map
        (fun a b hab => (Prod.mk.inj hab).2)
    · exact expectedPairs_nodup cs (fi + 1)
    · intro p hp1 hp2
      obtain ⟨si, _, rfl⟩ := List.mem_map.mp hp1
      have := expectedPairs_fst_ge cs (fi + 1) _ hp2
      simp at this

theorem assignIds_map_id (fi : ℕ) (cn : String) : ∀ (i : ℕ) (l : List Student),
    (assignIds fi cn i l).map (fun s => s.id) =
      (List.range l.length).map (fun k => mkId fi (i + k))
  | _, [] => rfl
  | i, s :: rest => by
    rw [assignIds, List.map_cons, assignIds_map_id fi cn (i + 1) rest,
      List.length_cons, List.range_succ_eq_map, List.map_cons, List.map_map,
      Nat.add_zero]
    congr 1
    refine List.map_congr_left (fun k _ => ?_)
    show mkId fi (i + 1 + k) = mkId fi (i + Nat.succ k)
    congr 1
    omega

theorem assignIds_length (fi : ℕ) (cn : String) : ∀ (i : ℕ) (l : List Student),
    (assignIds fi cn i l).length = l.length
  | _, [] => rfl
  | i, s :: rest => by
    rw [assignIds, List.length_cons, List.length_cons,
      assignIds_length fi cn (i + 1) rest]

theorem mergedOf_map_id : ∀ (rs : List ParseResult) (fi : ℕ),
    (mergedOf fi rs).map (fun s => s.id) =
      (expectedPairs fi (rs.map (fun r => r.students.length))).map
        (fun p => mkId p.1 p.2)
  | [], _ => rfl
  | r :: rs, fi => by
    rw [mergedOf, List.map_cons, expectedPairs]
    rw [List.map_append, List.map_append, List.map_map]
    rw [assignIds_map_id fi _ 0 r.students, mergedOf_map_id rs (fi + 1)]
    congr 1
    refine List.map_congr_left (fun k _ => ?_)
    show mkId fi (0 + k) = mkId fi k
    congr 1
    omega

theorem mergedOf_length : ∀ (rs : List ParseResult) (fi : ℕ),
    (mergedOf fi rs).length = (rs.map (fun r => r.students.length)).sum
  | [], _ => rfl
  | r :: rs, fi => by
    rw [mergedOf, List.length_append, assignIds_length,
      mergedOf_length rs (fi + 1), List.map_cons, List.sum_cons]

theorem aggGo_ok_shape : ∀ (files : List (String × List Row)) (fi : ℕ)
    (mm : ClassMetadata) (ms : List String) (acc sts : List Student)
    (subs : List String) (meta : ClassMetadata),
    aggGo fi (some (mm, ms)) acc files = .ok (sts, subs, meta) →
    ∃ results, parseAll files = .ok results ∧ sts = acc ++ mergedOf fi results
  | [], fi, mm, ms, acc, sts, subs, meta, h => by
    rw [aggGo] at h
    have h2 := Except.ok.inj h
    refine ⟨[], rfl, ?_⟩
    rw [mergedOf, List.append_nil]
    exact (congrArg (fun t => t.1) h2).symm
  | (fname, grid) :: rest, fi, mm, ms, acc, sts, subs, meta, h => by
    rw [aggGo] at h
    cases hp : parseGrid grid with
    | error e =>
      rw [hp] at h
      exact Except.noConfusion h
    | ok r =>
      rw [hp] at h
      dsimp only at h
      by_cases hl : r.metadata.level ≠ mm.level
      · rw [if_pos hl] at h
        exact Except.noConfusion h
      · rw [if_neg hl] at h
        by_cases hst : r.metadata.stream ≠ mm.stream
        · rw [if_pos hst] at h
          exact Except.noConfusion h
        · rw [if_neg hst] at h
          obtain ⟨results, hres, hsts⟩ := aggGo_ok_shape rest (fi + 1) mm ms
            (acc ++ assignIds fi r.metadata.classNumber 0 r.students)
            sts subs meta h
          refine ⟨r :: results, ?_, ?_⟩
          · rw [parseAll, hp, hres]
          · rw [hsts, mergedOf, List.append_assoc]

/-- C8: a successful multi-file aggregation yields exactly the sum of the
per-file student counts, every merged id has the form
`f{fileIndex}-s{studentIndex}`, and all ids are pairwise distinct. -/
theorem c8_merged_ids_distinct (files : List (String × List Row))
    (results : List ParseResult)
    (hres : parseAll files = Except.ok results)
    (sts : List Student) (subs : List String) (meta : ClassMetadata)
    (hok : aggregateFiles files = Except.ok (sts, subs, meta)) :
    sts.length = (results.map (fun r => r.students.length)).sum ∧
    sts.map (fun s => s.id) =
      (expectedPairs 0 (results.map (fun r => r.students.length))).map
        (fun p => mkId p.1 p.2) ∧
    (sts.map (fun s => s.id)).Nodup := by
  have hsts : sts = mergedOf 0 results := by
    match files, hres with
    | [], hres =>
      rw [parseAll] at hres
      obtain rfl := Except.ok.inj hres
      rw [aggregateFiles, aggGo] at hok
      exact Except.noConfusion hok
    | (fname, grid) :: rest, hres =>
      rw [aggregateFiles, aggGo] at hok
      rw [parseAll] at hres
      cases hp : parseGrid grid with
      | error e =>
        rw [hp] at hres
        exact Except.noConfusion hres
      | ok r =>
        rw [hp] at hok hres
        obtain ⟨results2, hres2, hsts2⟩ := aggGo_ok_shape rest 1
          r.metadata r.subjects
          ([] ++ assignIds 0 r.metadata.classNumber 0 r.students)
          sts subs meta hok
        rw [hres2] at hres
        obtain rfl := Except.ok.inj hres
        rw [hsts2, mergedOf, List.nil_append]
  constructor
  · rw [hsts]
    exact mergedOf_length results 0
  constructor
  · rw [hsts]
    exact mergedOf_map_id results 0
  · rw [hsts, mergedOf_map_id results 0]
    exact ((expectedPairs_nodup _ 0).map mkId_uncurried_injective)

/-- C8 witness: merging two copies of `wGridA` (one student each) yields
two students with distinct ids `f0-s0` and `f1-s0`. -/
theorem c8_merged_ids_distinct_witness :
    parseAll [("a.xlsx", wGridA), ("b.xlsx", wGridA)] =
      Except.ok [wResA, wResA] ∧
    aggregateFiles [("a.xlsx", wGridA), ("b.xlsx", wGridA)] =
      Except.ok ([wAggStudent 0, wAggStudent 1], ["S1"], wAggMeta) ∧
    ([wAggStudent 0, wAggStudent 1] : List Student).length =
      ([wResA, wResA].map (fun r => r.students.length)).sum ∧
    ([wAggStudent 0, wAggStudent 1] : List Student).map (fun s => s.id) =
      (expectedPairs 0 ([wResA, wResA].map (fun r => r.students.length))).map
        (fun p => mkId p.1 p.2) ∧
    (([wAggStudent 0, wAggStudent 1] : List Student).map (fun s => s.id)).Nodup := by
  refine ⟨by rfl, by rfl, ?_⟩
  exact c8_merged_ids_distinct [("a.xlsx", wGridA), ("b.xlsx", wGridA)]
    [wResA, wResA] (by rfl) [wAggStudent 0, wAggStudent 1] ["S1"] wAggMeta
    (by rfl)

theorem aggGo_mismatch : ∀ (rest : List (String × List Row)) (k : ℕ)
    (results : List ParseResult) (mm : ClassMetadata) (ms : List String)
    (acc : List Student) (fi : ℕ),
    parseAll (rest.take (k + 1)) = Except.ok results →
    results.length = k + 1 →
    (∀ j, j < k →
      ((results.getD j default).metadata.level = mm.level ∧
        (results.getD j default).metadata.stream = mm.stream)) →
    ((results.getD k default).metadata.level ≠ mm.level ∨
      (results.getD k default).metadata.stream ≠ mm.stream) →
    aggGo fi (some (mm, ms)) acc rest =
      Except.error
        (if (results.getD k default).metadata.level ≠ mm.level then
          levelMsg (rest.getD k ("", [])).1
            (results.getD k default).metadata.level mm.level
        else
          streamMsg (rest.getD k ("", [])).1
            (results.getD k default).metadata.stream mm.stream)
  | [], k, results, mm, ms, acc, fi, hres, hlen, _, _ => by
    rw [List.take_nil, parseAll] at hres
    obtain rfl := Except.ok.inj hres
    simp at hlen
  | (fname, grid) :: rest2, k, results, mm, ms, acc, fi, hres, hlen, hmatch, hmis => by
    rw [List.take_succ_cons, parseAll] at hres
    cases hp : parseGrid grid with
    | error e =>
      rw [hp] at hres
      exact Except.noConfusion hres
    | ok r₀ =>
      rw [hp] at hres
      cases hq : parseAll (rest2.take k) with
      | error e =>
        rw [hq] at hres
        exact Except.noConfusion hres
      | ok results2 =>
        rw [hq] at hres
        obtain rfl := Except.ok.inj hres
        rw [aggGo, hp]
        dsimp only
        match k, hlen with
        | 0, hlen =>
          simp only [List.getD_cons_zero]
          rcases hmis with hlv | hstm
          · simp only [List.getD_cons_zero] at hlv
            rw [if_pos hlv, if_pos hlv]
          · simp only [List.getD_cons_zero] at hstm
            by_cases hlv : r₀.metadata.level ≠ mm.level
            · rw [if_pos hlv, if_pos hlv]
            · rw [if_neg hlv, if_neg hlv, if_pos hstm]
        | k2 + 1, hlen =>
          have h0 := hmatch 0 (by omega)
          simp only [List.getD_cons_zero] at h0
          rw [if_neg (by simp [h0.1]), if_neg (by simp [h0.2])]
          have hrec := aggGo_mismatch rest2 k2 results2 mm ms
            (acc ++ assignIds fi r₀.metadata.classNumber 0 r₀.students)
            (fi + 1) hq (by simpa using hlen)
            (fun j hj => by
              have := hmatch (j + 1) (by omega)
              simpa using this)
            (by simpa using hmis)
          rw [hrec]
          simp only [List.getD_cons_succ]

/-- C2: in multi-file aggregation, when every file before index `i`
matches the first file's level and stream and file `i` does not, the whole
batch aborts with the mismatch error naming file `i` and both conflicting
values; the result is an error, so no students from any file are
delivered. -/
theorem c2_metadata_mismatch_aborts (files : List (String × List Row))
    (i : ℕ) (h1 : 1 ≤ i) (hi : i < files.length)
    (results : List ParseResult)
    (hres : parseAll (files.take (i + 1)) = Except.ok results)
    (hlen : results.length = i + 1)
    (hmatch : ∀ j, 1 ≤ j → j < i →
      ((results.getD j default).metadata.level =
        (results.getD 0 default).metadata.level ∧
       (results.getD j default).metadata.stream =
        (results.getD 0 default).metadata.stream))
    (hmis : (results.getD i default).metadata.level ≠
        (results.getD 0 default).metadata.level ∨
      (results.getD i default).metadata.stream ≠
        (results.getD 0 default).metadata.stream) :
    aggregateFiles files =
      Except.error
        (if (results.getD i default).metadata.level ≠
            (results.getD 0 default).metadata.level then
          levelMsg (files.getD i ("", [])).1
            (results.getD i default).metadata.level
            (results.getD 0 default).metadata.level
        else
          streamMsg (files.getD i ("", [])).1
            (results.getD i default).metadata.stream
            (results.getD 0 default).metadata.stream) := by
  match files, hi with
  | (f0, g0) :: rest, hi =>
    rw [List.take_succ_cons, parseAll] at hres
    cases hp : parseGrid g0 with
    | error e =>
      rw [hp] at hres
      exact Except.noConfusion hres
    | ok r₀ =>
      rw [hp] at hres
      cases hq : parseAll (rest.take i) with
      | error e =>
        rw [hq] at hres
        exact Except.noConfusion hres
      | ok results2 =>
        rw [hq] at hres
        obtain rfl := Except.ok.inj hres
        rw [aggregateFiles, aggGo, hp]
        dsimp only
        have hi1 : i - 1 + 1 = i := by omega
        have hrec := aggGo_mismatch rest (i - 1) results2 r₀.metadata
          r₀.subjects ([] ++ assignIds 0 r₀.metadata.classNumber 0 r₀.students)
          1 (by rw [hi1]; exact hq) (by simp at hlen; omega)
          (fun j hj => by
            have := hmatch (j + 1) (by omega) (by omega)
            simpa using this)
          (by
            have hmis2 := hmis
            simp only [List.getD_cons_zero] at hmis2
            have hidx : i = (i - 1) + 1 := by omega
            rw [hidx] at hmis2
            simpa using hmis2)
        rw [hrec]
        have hidx : i = (i - 1) + 1 := by omega
        rw [hidx]
        simp only [List.getD_cons_succ, List.getD_cons_zero,
          Nat.add_sub_cancel]

/-- C2 witness: `wGridA` (level `L1 L2`) followed by `wGridB` (level
`X1 L2`) aborts with the level-mismatch message naming `b.xlsx` and both
levels. -/
theorem c2_metadata_mismatch_aborts_witness :
    (1 : ℕ) ≤ 1 ∧
    1 < ([("a.xlsx", wGridA), ("b.xlsx", wGridB)] :
      List (String × List Row)).length ∧
    parseAll (([("a.xlsx", wGridA), ("b.xlsx", wGridB)] :
      List (String × List Row)).take 2) = Except.ok [wResA, wResB] ∧
    ([wResA, wResB] : List ParseResult).length = 2 ∧
    wResB.metadata.level ≠ wResA.metadata.level ∧
    aggregateFiles [("a.xlsx", wGridA), ("b.xlsx", wGridB)] =
      Except.error (levelMsg "b.xlsx" "X1 L2" "L1 L2") := by
  refine ⟨le_refl 1, by decide, by rfl, by rfl, by decide, ?_⟩
  have h := c2_metadata_mismatch_aborts
    [("a.xlsx", wGridA), ("b.xlsx", wGridB)] 1 (le_refl 1) (by decide)
    [wResA, wResB] (by rfl) (by rfl)
    (fun j hj1 hj2 => absurd hj2 (by omega))
    (Or.inl (by decide))
  rw [h]
  exact congrArg Except.error (by decide)

end Analo
